import Mathlib

/-!
# The parameter store of `vowpalwabbit/array_parameters.h`

A shallow embedding of the dense store, the sparse store and their iterators,
with memory made explicit: a heap of blocks, pointers as a block and an offset
into it.  Machine integers are naturals reduced modulo `2 ^ 64` (`size_t`,
`uint64_t`) or `2 ^ 32` (`uint32_t`).
-/

set_option autoImplicit false

namespace VW

/-! ## Scalars, machine words, memory -/

/-- The scalar `typedef float weight`, kept as its 32 bit pattern: the store only
copies weights and assigns the constant `0` (pattern `0`), it never computes with them. -/
abbrev weight := Nat

/-- The pattern of the float `3.5`. -/
def weight_3_5 : weight := 0x40600000

/-- The left shift `x << s` of a `size_t`. -/
def shl64 (x s : Nat) : Nat := (x <<< s) % 2 ^ 64

/-- The difference `x - y` of two `uint64_t`. -/
def sub64 (x y : Nat) : Nat := ((2 ^ 64 - y % 2 ^ 64) + x) % 2 ^ 64

/-- The conversion to `uint32_t` of `x << s`. -/
def shl32 (x s : Nat) : Nat := (x <<< s) % 2 ^ 32

/-- A `weight*`: the block it points into (`none` for a pointer made from `nullptr`)
and the offset in scalars from the start of that block. -/
structure Ptr where
  base : Option Nat
  off : Nat
deriving DecidableEq

/-- The null pointer. -/
def nullptr : Ptr := ⟨none, 0⟩

/-- Pointer arithmetic `p + k`. -/
def Ptr.add (p : Ptr) (k : Nat) : Ptr := ⟨p.base, p.off + k⟩

/-- The difference `p - q` of two pointers into one block. -/
def Ptr.diff (p q : Ptr) : Nat := p.off - q.off

/-- The memory: the blocks handed out so far, `none` once released, and the log of the
releases, one entry per call that released a block. -/
structure Heap where
  blocks : List (Option (List weight))
  freed : List Nat
deriving DecidableEq

/-- The heap before any allocation. -/
def Heap.empty : Heap := ⟨[], []⟩

/-- The contents of a live block. -/
def Heap.block (h : Heap) (b : Nat) : Option (List weight) :=
  match h.blocks[b]? with
  | some (some blk) => some blk
  | _ => none

/-- Reading `*p`; `none` when `p` is null, released, or outside its block. -/
def Heap.read (h : Heap) (p : Ptr) : Option weight :=
  match p.base with
  | none => none
  | some b =>
    match h.block b with
    | none => none
    | some blk => blk[p.off]?

/-- Writing `*p = v`; `none` when `p` is null, released, or outside its block. -/
def Heap.write (h : Heap) (p : Ptr) (v : weight) : Option Heap :=
  match p.base with
  | none => none
  | some b =>
    match h.block b with
    | none => none
    | some blk =>
      if p.off < blk.length then
        some { h with blocks := h.blocks.set b (some (blk.set p.off v)) }
      else none

/-- Modelled from the spec: `calloc_mergable_or_throw<weight>(n)`, whose definition is not in
this header; the spec describes the allocation capability as "allocate zeroed buffer of N
scalars, abort process on failure".  A fresh block of `n` zero scalars, and a pointer to its
start. -/
def calloc_mergable_or_throw (h : Heap) (n : Nat) : Heap × Ptr :=
  ({ h with blocks := h.blocks ++ [some (List.replicate n 0)] }, ⟨some h.blocks.length, 0⟩)

/-! ## The dense store -/

/-- The fields of `class dense_parameters`. -/
structure dense_parameters where
  _begin : Ptr
  _weight_mask : Nat
  _stride_shift : Nat
  _stride : Nat
  _seeded : Bool
deriving DecidableEq

namespace dense_parameters

/-- The constructor `dense_parameters(size_t length, uint32_t stride_shift)`. -/
def ctor (h : Heap) (length stride_shift : Nat) : Heap × dense_parameters :=
  let a := calloc_mergable_or_throw h (shl64 length stride_shift)
  (a.1,
   { _begin := a.2
     _weight_mask := sub64 (shl64 length stride_shift) 1
     _stride_shift := stride_shift
     _stride := shl32 1 stride_shift
     _seeded := false })

/-- The default constructor `dense_parameters()`. -/
def default_ctor : dense_parameters :=
  { _begin := nullptr, _weight_mask := 0, _stride_shift := 0, _stride := 1, _seeded := false }

/-- The address taken by `operator[](size_t i)`: `&_begin[i & _weight_mask]`. -/
def op_index (st : dense_parameters) (i : Nat) : Ptr :=
  st._begin.add (i &&& st._weight_mask)

/-- The address taken by `strided_index(size_t index)`. -/
def strided_index (st : dense_parameters) (index : Nat) : Ptr :=
  st.op_index (shl64 index st._stride_shift)

/-- The method `shallow_copy(const dense_parameters& input)`; `_stride` is not assigned. -/
def shallow_copy (self input : dense_parameters) : dense_parameters :=
  { self with
    _begin := input._begin
    _weight_mask := input._weight_mask
    _stride_shift := input._stride_shift
    _seeded := true }

/-- The copy constructor `dense_parameters(const dense_parameters& other)`: the members are
not initialised before `shallow_copy` runs, `uninit` is what the memory of the new object
held. -/
def copy_ctor (uninit other : dense_parameters) : dense_parameters :=
  uninit.shallow_copy other

/-- The accessor `mask()`. -/
def mask (st : dense_parameters) : Nat := st._weight_mask

/-- The accessor `seeded()`. -/
def seeded (st : dense_parameters) : Bool := st._seeded

/-- The accessor `stride()`. -/
def stride (st : dense_parameters) : Nat := st._stride

/-- The accessor `stride_shift()`. -/
def stride_shift (st : dense_parameters) : Nat := st._stride_shift

/-- The setter `stride_shift(uint32_t stride_shift)`. -/
def set_stride_shift (st : dense_parameters) (stride_shift : Nat) : dense_parameters :=
  { st with _stride_shift := stride_shift }

end dense_parameters

/-! ## Iterators of the dense store -/

/-- The fields of `class weight_iterator_iterator`, the iterator over the slots of a bucket. -/
structure weight_iterator_iterator where
  _cur : Ptr
deriving DecidableEq

namespace weight_iterator_iterator

/-- The address given by `operator*()`. -/
def deref (it : weight_iterator_iterator) : Ptr := it._cur

/-- The step `operator++()`. -/
def incr (it : weight_iterator_iterator) : weight_iterator_iterator := ⟨it._cur.add 1⟩

/-- The comparison `operator!=`. -/
def ne (it rhs : weight_iterator_iterator) : Bool := decide (it._cur ≠ rhs._cur)

/-- The loop `for (it = first; it != last; ++it)`, giving the slot iterators it visits;
`none` when it has not reached `last` within `fuel` tests. -/
def walk : Nat → weight_iterator_iterator → weight_iterator_iterator →
    Option (List weight_iterator_iterator)
  | 0, _, _ => none
  | fuel + 1, it, last =>
    if it.ne last then (walk fuel it.incr last).map (fun l => it :: l) else some []

end weight_iterator_iterator

/-- The fields of `class dense_iterator<T>`, the iterator over the buckets of a dense store. -/
structure dense_iterator where
  _current : Ptr
  _begin : Ptr
  _stride : Nat
deriving DecidableEq

namespace dense_iterator

/-- The address given by `operator*()`. -/
def deref (it : dense_iterator) : Ptr := it._current

/-- The query `index()`: `_current - _begin`. -/
def index (it : dense_iterator) : Nat := it._current.diff it._begin

/-- The step `operator++()`: `_current += _stride`. -/
def incr (it : dense_iterator) : dense_iterator :=
  { it with _current := it._current.add it._stride }

/-- The comparison `operator!=`, on `_current` alone. -/
def ne (it rhs : dense_iterator) : Bool := decide (it._current ≠ rhs._current)

/-- The slot iterator `begin()` of the bucket. -/
def begin (it : dense_iterator) : weight_iterator_iterator := ⟨it._current⟩

/-- The slot iterator `end()` of the bucket. -/
def end_ (it : dense_iterator) : weight_iterator_iterator := ⟨it._current.add it._stride⟩

/-- The slot iterator `end(size_t offset)` of the bucket. -/
def end_offset (it : dense_iterator) (offset : Nat) : weight_iterator_iterator :=
  ⟨it._current.add offset⟩

/-- The loop `for (it = first; it != last; ++it)`, giving the bucket iterators it visits;
`none` when it has not reached `last` within `fuel` tests. -/
def walk : Nat → dense_iterator → dense_iterator → Option (List dense_iterator)
  | 0, _, _ => none
  | fuel + 1, it, last =>
    if it.ne last then (walk fuel it.incr last).map (fun l => it :: l) else some []

end dense_iterator

namespace dense_parameters

/-- The bucket iterator `begin()`. -/
def begin (st : dense_parameters) : dense_iterator :=
  ⟨st._begin, st._begin, st._stride⟩

/-- The bucket iterator `end()`: `_begin + _weight_mask + 1`. -/
def end_ (st : dense_parameters) : dense_iterator :=
  ⟨(st._begin.add st._weight_mask).add 1, st._begin, st._stride⟩

/-- The bucket iterator `cbegin()`. -/
def cbegin (st : dense_parameters) : dense_iterator :=
  ⟨st._begin, st._begin, st._stride⟩

/-- The bucket iterator `cend()`. -/
def cend (st : dense_parameters) : dense_iterator :=
  ⟨(st._begin.add st._weight_mask).add 1, st._begin, st._stride⟩

/-- The loop of `set_zero`: `for (; iter != end(); ++iter) (&(*iter))[offset] = 0;`.
`none` when a store is out of bounds or `last` is not reached within `fuel` tests. -/
def set_zero_loop : Nat → Heap → dense_iterator → dense_iterator → Nat → Option Heap
  | 0, _, _, _, _ => none
  | fuel + 1, h, it, last, offset =>
    if it.ne last then
      match h.write (it.deref.add offset) 0 with
      | none => none
      | some h1 => set_zero_loop fuel h1 it.incr last offset
    else some h

/-- The method `set_zero(size_t offset)`. -/
def set_zero (fuel : Nat) (h : Heap) (st : dense_parameters) (offset : Nat) : Option Heap :=
  set_zero_loop fuel h st.begin st.end_ offset

/-- A dense store whose buffer is a live block of `_weight_mask + 1` scalars, cut into
buckets of `_stride` scalars. -/
def valid (h : Heap) (st : dense_parameters) : Prop :=
  st._begin.off = 0 ∧
  (∃ b, st._begin.base = some b ∧ (h.block b).map List.length = some (st._weight_mask + 1)) ∧
  0 < st._stride ∧ (st._weight_mask + 1) % st._stride = 0

end dense_parameters

/-! ## The sparse store -/

/-- The table `std::unordered_map<uint64_t, weight*>`: its entries in traversal order, keys
distinct. -/
abbrev weight_map := List (Nat × Ptr)

namespace weight_map

/-- The position given by `find(k)`; the length of the table stands for `end()`. -/
def find : weight_map → Nat → Nat
  | [], _ => 0
  | e :: m, k => if e.1 = k then 0 else find m k + 1

/-- The position `end()`. -/
def end_ (m : weight_map) : Nat := m.length

/-- The call `insert(std::make_pair(k, p))`: no effect when the key is present. -/
def insert (m : weight_map) (k : Nat) (p : Ptr) : weight_map :=
  if find m k = m.end_ then m ++ [(k, p)] else m

/-- The entry an iterator at position `pos` points to; `none` at `end()`. -/
def entry (m : weight_map) (pos : Nat) : Option (Nat × Ptr) := m[pos]?

end weight_map

/-- The fields of `class sparse_iterator<T>`: an iterator into the table, as the table and a
position in it, and the stride. -/
structure sparse_iterator where
  _map : weight_map
  _iter : Nat
  _stride : Nat
deriving DecidableEq

namespace sparse_iterator

/-- The query `index()`: `_iter->first`. -/
def index (it : sparse_iterator) : Option Nat := (it._map.entry it._iter).map (fun e => e.1)

/-- The address given by `operator*()`: `_iter->second`. -/
def deref (it : sparse_iterator) : Option Ptr := (it._map.entry it._iter).map (fun e => e.2)

/-- The step `operator++()`. -/
def incr (it : sparse_iterator) : sparse_iterator := { it with _iter := it._iter + 1 }

/-- The comparison `operator!=`, on `_iter` alone. -/
def ne (it rhs : sparse_iterator) : Bool := decide (it._iter ≠ rhs._iter)

/-- The slot iterator `begin()` of the bucket. -/
def begin (it : sparse_iterator) : Option weight_iterator_iterator :=
  it.deref.map (fun p => ⟨p⟩)

/-- The slot iterator `end()` of the bucket. -/
def end_ (it : sparse_iterator) : Option weight_iterator_iterator :=
  it.deref.map (fun p => ⟨p.add it._stride⟩)

end sparse_iterator

/-- The type of the registered initializer `void(*fun)(iterator&, void*)`: given the bucket
iterator and the context, it acts on the memory. -/
abbrev initializer_fn := sparse_iterator → Nat → Heap → Heap

/-- The fields of `class sparse_parameters`; `default_data` is the context handed to the
initializer, `fun_` is the member `fun`, `none` for `nullptr`. -/
structure sparse_parameters where
  _map : weight_map
  _weight_mask : Nat
  _stride_shift : Nat
  _stride : Nat
  _seeded : Bool
  _delete : Bool
  default_data : Nat
  fun_ : Option initializer_fn

namespace sparse_parameters

/-- The constructor `sparse_parameters(size_t length, uint32_t stride_shift)`; `default_data`
is not initialised, `uninit_data` is what its memory held. -/
def ctor (length stride_shift uninit_data : Nat) : sparse_parameters :=
  { _map := []
    _weight_mask := sub64 (shl64 length stride_shift) 1
    _stride_shift := stride_shift
    _stride := shl32 1 stride_shift
    _seeded := false
    _delete := false
    default_data := uninit_data
    fun_ := none }

/-- The default constructor `sparse_parameters()`. -/
def default_ctor (uninit_data : Nat) : sparse_parameters :=
  { _map := [], _weight_mask := 0, _stride_shift := 0, _stride := 1, _seeded := false,
    _delete := false, default_data := uninit_data, fun_ := none }

/-- The method `operator[](size_t i)`: the memory and the store after the call, and the
address returned (`none` if the iterator dereferenced is `end()`). -/
def op_index (h : Heap) (st : sparse_parameters) (i : Nat) :
    Heap × sparse_parameters × Option Ptr :=
  let index := i &&& st._weight_mask
  let iter := st._map.find index
  if iter = st._map.end_ then
    let a := calloc_mergable_or_throw h st._stride
    let m := st._map.insert index a.2
    let iter1 := m.find index
    let h1 := match st.fun_ with
      | some f => f ⟨m, iter1, st._stride⟩ st.default_data a.1
      | none => a.1
    let iter2 := m.find index
    (h1, { st with _map := m }, (m.entry iter2).map (fun e => e.2))
  else
    (h, st, (st._map.entry iter).map (fun e => e.2))

/-- The method `strided_index(size_t index)`. -/
def strided_index (h : Heap) (st : sparse_parameters) (index : Nat) :
    Heap × sparse_parameters × Option Ptr :=
  op_index h st (shl64 index st._stride_shift)

/-- The method `shallow_copy(const sparse_parameters& input)`: `_map = input._map` assigns a
copy of the table; `_stride` is not assigned. -/
def shallow_copy (self input : sparse_parameters) : sparse_parameters :=
  { self with
    _map := input._map
    _weight_mask := input._weight_mask
    _stride_shift := input._stride_shift
    _seeded := true }

/-- The method `set_default<R, T>(R& info)`: the context and the function are recorded. -/
def set_default_info (st : sparse_parameters) (T : initializer_fn) (info : Nat) :
    sparse_parameters :=
  { st with default_data := info, fun_ := some T }

/-- The method `set_default<T>()`. -/
def set_default (st : sparse_parameters) (T : initializer_fn) : sparse_parameters :=
  { st with fun_ := some T }

/-- The loop of `set_zero` over the entries of the table:
`(&(*(iter->second)))[offset] = 0`. -/
def set_zero_loop : Heap → weight_map → Nat → Option Heap
  | h, [], _ => some h
  | h, e :: rest, offset =>
    match h.write (e.2.add offset) 0 with
    | none => none
    | some h1 => set_zero_loop h1 rest offset

/-- The method `set_zero(size_t offset)`. -/
def set_zero (h : Heap) (st : sparse_parameters) (offset : Nat) : Option Heap :=
  set_zero_loop h st._map offset

/-- The accessor `mask()`. -/
def mask (st : sparse_parameters) : Nat := st._weight_mask

/-- The accessor `seeded()`. -/
def seeded (st : sparse_parameters) : Bool := st._seeded

/-- The accessor `stride()`. -/
def stride (st : sparse_parameters) : Nat := st._stride

/-- The accessor `stride_shift()`. -/
def stride_shift (st : sparse_parameters) : Nat := st._stride_shift

/-- The setter `stride_shift(uint32_t stride_shift)`. -/
def set_stride_shift (st : sparse_parameters) (stride_shift : Nat) : sparse_parameters :=
  { st with _stride_shift := stride_shift }

/-- A sparse store each of whose buckets is the start of a live block of `_stride` scalars. -/
def valid (h : Heap) (st : sparse_parameters) : Prop :=
  ∀ e ∈ st._map, e.2.off = 0 ∧
    ∃ b, e.2.base = some b ∧ (h.block b).map List.length = some st._stride

end sparse_parameters

/-- A dense store whose stride is `1 << stride_shift` and whose size `_weight_mask + 1` is a
power of two that the stride divides. -/
def dense_parameters.aligned (st : dense_parameters) : Prop :=
  st._stride = 2 ^ st._stride_shift ∧
    ∃ m, st._stride_shift ≤ m ∧ m ≤ 64 ∧ st._weight_mask = 2 ^ m - 1

/-- The address `p` lies inside a live block of the memory. -/
def Heap.inbounds (h : Heap) (p : Ptr) : Prop :=
  ∃ b n, p.base = some b ∧ (h.block b).map List.length = some n ∧ p.off < n

/-! ## Failure, release, shared memory -/

/-- How a call ends when it does not return: a C++ `throw v` of an `int`, or an access
outside live memory. -/
inductive Failure where
  | thrown (v : Int)
  | fault
deriving DecidableEq

/-- The product `x * y` of two `size_t`. -/
def mul64 (x y : Nat) : Nat := (x * y) % 2 ^ 64

/-- The library call `free(p)`: nothing for the null pointer, otherwise the block is released
and the release logged. -/
def Heap.free (h : Heap) (p : Ptr) : Heap :=
  match p.base with
  | none => h
  | some b => { blocks := h.blocks.set b none, freed := h.freed ++ [b] }

/-- The system call `mmap(0, bytes, PROT_READ | PROT_WRITE, MAP_SHARED | MAP_ANONYMOUS, -1, 0)`:
a fresh zero-filled mapping, counted in scalars of `sizeof(float) = 4` bytes. -/
def mmap (h : Heap) (bytes : Nat) : Heap × Ptr :=
  ({ h with blocks := h.blocks ++ [some (List.replicate (bytes / 4) 0)] },
   ⟨some h.blocks.length, 0⟩)

/-- The library call `memcpy(dest, src, bytes)` between two blocks, in scalars of 4 bytes;
`none` when a range leaves its block. -/
def memcpy (h : Heap) (dest src : Ptr) (bytes : Nat) : Option Heap :=
  if bytes / 4 = 0 then some h
  else
    match dest.base, src.base with
    | some d, some s =>
      match h.block d, h.block s with
      | some db, some sb =>
        if dest.off + bytes / 4 ≤ db.length ∧ src.off + bytes / 4 ≤ sb.length then
          some { h with blocks := h.blocks.set d (some (db.take dest.off ++
            (sb.drop src.off).take (bytes / 4) ++ db.drop (dest.off + bytes / 4))) }
        else none
      | _, _ => none
    | _, _ => none

/-- The type of the initializer `void T(iterator&, R&)` handed to the dense `set_default`:
given the bucket iterator and the context, it acts on the memory. -/
abbrev dense_initializer_fn := dense_iterator → Nat → Heap → Heap

namespace dense_parameters

/-- The method `first()`. -/
def first (st : dense_parameters) : Ptr := st._begin

/-- The loop of `set_default<R, T>(R& info)`:
`for (size_t i = 0; iter != end(); ++iter, i += _stride) T(iter, info);` (the counter `i` is
not read).  `none` when `last` is not reached within `fuel` tests. -/
def set_default_loop : Nat → Heap → dense_iterator → dense_iterator → dense_initializer_fn →
    Nat → Option Heap
  | 0, _, _, _, _, _ => none
  | fuel + 1, h, it, last, T, info =>
    if it.ne last then set_default_loop fuel (T it info h) it.incr last T info else some h

/-- The method `set_default<R, T>(R& info)`. -/
def set_default_info (fuel : Nat) (h : Heap) (st : dense_parameters) (T : dense_initializer_fn)
    (info : Nat) : Option Heap :=
  set_default_loop fuel h st.begin st.end_ T info

/-- The method `share(size_t length)`: the memory and the store as the call leaves them, and
`fault` when the copy leaves a block. -/
def share (h : Heap) (st : dense_parameters) (length : Nat) :
    Heap × dense_parameters × Except Failure Unit :=
  let shared_weights := mmap h (mul64 (shl64 length st._stride_shift) 4)
  let float_count := shl64 length st._stride_shift
  let dest := shared_weights.2
  match memcpy shared_weights.1 dest st._begin (mul64 float_count 4) with
  | none => (h, st, .error .fault)
  | some h1 => (h1.free st._begin, { st with _begin := dest }, .ok ())

/-- The destructor `~dense_parameters()`. -/
def dtor (h : Heap) (st : dense_parameters) : Heap × dense_parameters :=
  if st._begin ≠ nullptr ∧ st._seeded = false then
    (h.free st._begin, { st with _begin := nullptr })
  else (h, st)

end dense_parameters

/-- The position `begin()` of a table. -/
def weight_map.begin (_m : weight_map) : Nat := 0

/-- The loop `for (it = first; it != last; ++it)` over sparse bucket iterators, giving the
iterators it visits; `none` when it has not reached `last` within `fuel` tests. -/
def sparse_iterator.walk : Nat → sparse_iterator → sparse_iterator →
    Option (List sparse_iterator)
  | 0, _, _ => none
  | fuel + 1, it, last =>
    if it.ne last then (walk fuel it.incr last).map (fun l => it :: l) else some []

namespace sparse_parameters

/-- The method `first()`: `throw 1`. -/
def first (h : Heap) (st : sparse_parameters) : Heap × sparse_parameters × Except Failure Ptr :=
  (h, st, .error (.thrown 1))

/-- The bucket iterator `begin()`. -/
def begin (st : sparse_parameters) : sparse_iterator := ⟨st._map, st._map.begin, st._stride⟩

/-- The bucket iterator `end()`. -/
def end_ (st : sparse_parameters) : sparse_iterator := ⟨st._map, st._map.end_, st._stride⟩

/-- The bucket iterator `cbegin()`. -/
def cbegin (st : sparse_parameters) : sparse_iterator := ⟨st._map, st._map.begin, st._stride⟩

/-- The bucket iterator `cend()`: built from `_map.begin()`. -/
def cend (st : sparse_parameters) : sparse_iterator := ⟨st._map, st._map.begin, st._stride⟩

/-- The method `share(size_t length)`: `throw 1`. -/
def share (h : Heap) (st : sparse_parameters) (_length : Nat) :
    Heap × sparse_parameters × Except Failure Unit :=
  (h, st, .error (.thrown 1))

/-- The destructor `~sparse_parameters()`. -/
def dtor (st : sparse_parameters) : sparse_parameters :=
  if st._delete = false ∧ st._seeded = false then { st with _map := [], _delete := true }
  else st

end sparse_parameters

/-! ## The facade -/

/-- The fields of `class parameters`. -/
structure parameters where
  sparse : Bool
  dense_weights : dense_parameters
  sparse_weights : sparse_parameters

namespace parameters

/-- The method `operator[](size_t i)`. -/
def op_index (h : Heap) (p : parameters) (i : Nat) : Heap × parameters × Option Ptr :=
  if p.sparse then
    let r := p.sparse_weights.op_index h i
    (r.1, { p with sparse_weights := r.2.1 }, r.2.2)
  else (h, p, some (p.dense_weights.op_index i))

/-- The method `stride_shift()`. -/
def stride_shift (p : parameters) : Nat :=
  if p.sparse then p.sparse_weights.stride_shift else p.dense_weights.stride_shift

/-- The method `stride()`. -/
def stride (p : parameters) : Nat :=
  if p.sparse then p.sparse_weights.stride else p.dense_weights.stride

/-- The method `mask()`. -/
def mask (p : parameters) : Nat :=
  if p.sparse then p.sparse_weights.mask else p.dense_weights.mask

/-- The method `seeded()`. -/
def seeded (p : parameters) : Bool :=
  if p.sparse then p.sparse_weights.seeded else p.dense_weights.seeded

/-- The method `shallow_copy(const parameters& input)`. -/
def shallow_copy (self input : parameters) : parameters :=
  if self.sparse then
    { self with sparse_weights := self.sparse_weights.shallow_copy input.sparse_weights }
  else { self with dense_weights := self.dense_weights.shallow_copy input.dense_weights }

/-- The method `set_zero(size_t offset)`. -/
def set_zero (fuel : Nat) (h : Heap) (p : parameters) (offset : Nat) : Option Heap :=
  if p.sparse then p.sparse_weights.set_zero h offset
  else p.dense_weights.set_zero fuel h offset

/-- The method `share(size_t length)`. -/
def share (h : Heap) (p : parameters) (length : Nat) :
    Heap × parameters × Except Failure Unit :=
  if p.sparse then
    let r := p.sparse_weights.share h length
    (r.1, { p with sparse_weights := r.2.1 }, r.2.2)
  else
    let r := p.dense_weights.share h length
    (r.1, { p with dense_weights := r.2.1 }, r.2.2)

end parameters

/-! ## Initializers -/

/-- Storing the scalars `vs` one after the other from the address `p` on, as a slot loop
`for (w = iter.begin(); w != iter.end(); ++w) *w = v` does; a store outside live memory ends
it. -/
def Heap.store : Heap → Ptr → List weight → Heap
  | h, _, [] => h
  | h, p, v :: vs =>
    match h.write p v with
    | some h1 => Heap.store h1 (p.add 1) vs
    | none => h

/-- The `c` scalars read from the address `p` on (0 where the read is outside live memory). -/
def Heap.load (h : Heap) (p : Ptr) (c : Nat) : List weight :=
  (List.range c).map (fun j => (h.read (p.add j)).getD 0)

/-- Modelled from the spec: the per-bucket initializers handed to `set_default` are defined
outside this header (the spec: "consumed by the excluded model-initialization logic to install
per-bucket default values").  A pure one is the value it gives to each slot of a bucket, from
the `index()` of the bucket, the context, and the scalars the bucket holds. -/
structure bucket_rule where
  value : Nat → Nat → List weight → Nat → weight

/-- The initializer of a rule, on a bucket seen through what both bucket iterators offer:
`index()`, the address `&(*iter)`, and the slots from `begin()` to `end()`. -/
def bucket_rule.run (g : bucket_rule) (index : Nat) (p : Ptr) (c : Nat) (info : Nat)
    (h : Heap) : Heap :=
  h.store p ((List.range c).map (g.value index info (h.load p c)))

/-- The initializer of a rule instantiated for the dense bucket iterator. -/
def bucket_rule.dense (g : bucket_rule) : dense_initializer_fn :=
  fun it info h => g.run it.index it.deref it._stride info h

/-- The initializer of a rule instantiated for the sparse bucket iterator. -/
def bucket_rule.sparse (g : bucket_rule) : initializer_fn :=
  fun it info h =>
    match it.index, it.deref with
    | some k, some p => g.run k p it._stride info h
    | _, _ => h

/-- An initializer that releases and resizes no block: it only stores scalars. -/
def keeps_blocks (f : initializer_fn) : Prop :=
  ∀ (it : sparse_iterator) (d : Nat) (h : Heap) (b : Nat),
    ((f it d h).block b).map List.length = (h.block b).map List.length

/-- The dense stores reached from the constructors (the length a power of two, no overflow of
`length << stride_shift`) by copy construction, `shallow_copy`, the `stride_shift` setter and
`share`; `operator[]` and `set_zero` assign no field of the store. -/
inductive dense_parameters.reachable : dense_parameters → Prop where
  | ctor (h : Heap) (n s : Nat) (hov : 2 ^ n * 2 ^ s < 2 ^ 64) :
      reachable (dense_parameters.ctor h (2 ^ n) s).2
  | default_ctor : reachable dense_parameters.default_ctor
  | copy_ctor (uninit other : dense_parameters) :
      reachable other → reachable (dense_parameters.copy_ctor uninit other)
  | shallow_copy (self input : dense_parameters) :
      reachable self → reachable input → reachable (self.shallow_copy input)
  | set_stride_shift (st : dense_parameters) (x : Nat) :
      reachable st → reachable (st.set_stride_shift x)
  | share (h : Heap) (st : dense_parameters) (length : Nat) :
      reachable st → reachable (st.share h length).2.1

/-- The dense stores of a program, each under the identity of its object: a method takes
`this` and its reference parameters by identity, so that two references may name one
object. -/
structure dense_objects where
  get : Nat → dense_parameters

/-- The call `self.shallow_copy(input)` on objects given by identity: the four assignments of
the method in their order, each reading `input` as it is at that point. -/
def dense_objects.shallow_copy (objs : dense_objects) (self input : Nat) : dense_objects :=
  let o1 : dense_objects :=
    ⟨Function.update objs.get self { objs.get self with _begin := (objs.get input)._begin }⟩
  let o2 : dense_objects :=
    ⟨Function.update o1.get self { o1.get self with _weight_mask := (o1.get input)._weight_mask }⟩
  let o3 : dense_objects :=
    ⟨Function.update o2.get self
      { o2.get self with _stride_shift := (o2.get input)._stride_shift }⟩
  ⟨Function.update o3.get self { o3.get self with _seeded := true }⟩

/-! ## Memory -/

theorem Ptr.add_add (p : Ptr) (a b : Nat) : (p.add a).add b = p.add (a + b) := by
  simp [Ptr.add, Nat.add_assoc]

theorem Ptr.add_zero (p : Ptr) : p.add 0 = p := rfl

theorem Ptr.add_inj (p : Ptr) (a b : Nat) : p.add a = p.add b ↔ a = b := by
  simp [Ptr.add]

theorem Heap.block_calloc_new (h : Heap) (n : Nat) :
    (calloc_mergable_or_throw h n).1.block h.blocks.length = some (List.replicate n 0) := by
  simp [calloc_mergable_or_throw, Heap.block]

theorem Heap.block_calloc_old (h : Heap) (n b : Nat) (hb : b < h.blocks.length) :
    (calloc_mergable_or_throw h n).1.block b = h.block b := by
  simp [calloc_mergable_or_throw, Heap.block, List.getElem?_append_left hb]

theorem Heap.block_lt (h : Heap) (b : Nat) (blk : List weight) (hb : h.block b = some blk) :
    b < h.blocks.length := by
  by_contra hc
  have : h.blocks[b]? = none := List.getElem?_eq_none (by omega)
  simp [Heap.block, this] at hb

theorem Heap.block_eq (h : Heap) (b : Nat) (blk : List weight) (hb : h.block b = some blk) :
    h.blocks[b]? = some (some blk) := by
  unfold Heap.block at hb
  split at hb
  · next x heq => rw [heq]; simpa using hb
  · exact absurd hb (by simp)

/-- A store into a live block, inside its bounds, succeeds. -/
theorem Heap.write_some (h : Heap) (p : Ptr) (v : weight) (b : Nat) (blk : List weight)
    (hp : p.base = some b) (hb : h.block b = some blk) (ho : p.off < blk.length) :
    h.write p v = some { h with blocks := h.blocks.set b (some (blk.set p.off v)) } := by
  simp [Heap.write, hp, hb, ho]

/-- What a successful store does to the blocks. -/
theorem Heap.write_inv (h h1 : Heap) (p : Ptr) (v : weight) (hw : h.write p v = some h1) :
    ∃ b blk, p.base = some b ∧ h.block b = some blk ∧ p.off < blk.length ∧
      h1 = { h with blocks := h.blocks.set b (some (blk.set p.off v)) } := by
  unfold Heap.write at hw
  split at hw
  · exact absurd hw (by simp)
  · next b hb =>
    split at hw
    · exact absurd hw (by simp)
    · next blk hblk =>
      split at hw
      · next hlt => exact ⟨b, blk, hb, hblk, hlt, by simpa using hw.symm⟩
      · exact absurd hw (by simp)

/-- After a store, the blocks: the one written is updated at the offset, the others are kept. -/
theorem Heap.block_write (h h1 : Heap) (p : Ptr) (v : weight) (hw : h.write p v = some h1)
    (c : Nat) :
    h1.block c = if p.base = some c then (h.block c).map (fun blk => blk.set p.off v)
      else h.block c := by
  obtain ⟨b, blk, hp, hb, ho, rfl⟩ := Heap.write_inv h h1 p v hw
  have hlt := Heap.block_lt h b blk hb
  by_cases hc : c = b
  · subst hc
    have hset : (h.blocks.set c (some (blk.set p.off v)))[c]? = some (some (blk.set p.off v)) := by
      rw [List.getElem?_set_self hlt]
    simp only [hp, if_true, hb, Option.map_some']
    simp only [Heap.block, hset]
  · have hne : ¬ (p.base = some c) := by rw [hp]; simpa using Ne.symm hc
    simp only [hne, if_false]
    simp [Heap.block, List.getElem?_set_ne (Ne.symm hc)]

/-- Read after write: the scalar stored is the scalar read back. -/
theorem Heap.read_write_same (h h1 : Heap) (p : Ptr) (v : weight)
    (hw : h.write p v = some h1) : h1.read p = some v := by
  obtain ⟨b, blk, hp, hb, ho, _⟩ := Heap.write_inv h h1 p v hw
  have hblk := Heap.block_write h h1 p v hw b
  simp only [hp, if_true, hb, Option.map_some'] at hblk
  simp [Heap.read, hp, hblk, List.getElem?_set_self ho]

/-- Frame of a store: every other address reads as before. -/
theorem Heap.read_write_other (h h1 : Heap) (p q : Ptr) (v : weight)
    (hw : h.write p v = some h1) (hq : q ≠ p) : h1.read q = h.read q := by
  obtain ⟨b, blk, hp, hb, ho, _⟩ := Heap.write_inv h h1 p v hw
  unfold Heap.read
  cases hqb : q.base with
  | none => rfl
  | some c =>
    simp only
    rw [Heap.block_write h h1 p v hw c]
    by_cases hc : p.base = some c
    · have hcb : c = b := by rw [hp] at hc; exact (Option.some.inj hc).symm
      subst hcb
      have hoff : p.off ≠ q.off := by
        intro heq
        apply hq
        cases p; cases q
        simp_all
      simp [hc, hb, List.getElem?_set_ne hoff]
    · simp [hc]

/-- A store keeps the length of every block. -/
theorem Heap.block_length_write (h h1 : Heap) (p : Ptr) (v : weight)
    (hw : h.write p v = some h1) (c : Nat) :
    (h1.block c).map List.length = (h.block c).map List.length := by
  rw [Heap.block_write h h1 p v hw c]
  split
  · cases h.block c <;> simp
  · rfl

/-! ## Arithmetic of masks -/

theorem shl64_eq_mul (L s : Nat) (hov : L * 2 ^ s < 2 ^ 64) : shl64 L s = L * 2 ^ s := by
  unfold shl64
  rw [Nat.shiftLeft_eq, Nat.mod_eq_of_lt hov]

theorem sub64_one (x : Nat) (hx : 0 < x) (hlt : x < 2 ^ 64) : sub64 x 1 = x - 1 := by
  unfold sub64
  have h1 : (1 : Nat) % 2 ^ 64 = 1 := by norm_num
  rw [h1]
  have h2 : 2 ^ 64 - 1 + x = (x - 1) + 2 ^ 64 := by omega
  rw [h2, Nat.add_mod_right]
  exact Nat.mod_eq_of_lt (by omega)

/-- The mask of a store built with a power of two length that does not overflow. -/
theorem ctor_mask (h : Heap) (n s : Nat) (hov : 2 ^ n * 2 ^ s < 2 ^ 64) :
    (dense_parameters.ctor h (2 ^ n) s).2._weight_mask = 2 ^ (n + s) - 1 := by
  have hp : 2 ^ n * 2 ^ s = 2 ^ (n + s) := (pow_add 2 n s).symm
  simp only [dense_parameters.ctor]
  rw [shl64_eq_mul _ _ hov, sub64_one _ (by positivity) hov, hp]

/-- Wrapping an index by a multiple of the buffer length does not change its masked offset. -/
theorem masked_offset_shift (m i : Nat) (k : Int) (hm : m ≤ 64) :
    (((i : Int) + k * (2 ^ m : Nat)) % 2 ^ 64).toNat % 2 ^ m = i % 2 ^ m := by
  have hdvd : ((2 : Int) ^ m) ∣ 2 ^ 64 := pow_dvd_pow 2 hm
  have hcast : (((2 ^ m : Nat) : Int)) = (2 : Int) ^ m := by push_cast; rfl
  rw [hcast]
  have hnn : 0 ≤ ((i : Int) + k * 2 ^ m) % 2 ^ 64 := Int.emod_nonneg _ (by norm_num)
  zify
  rw [Int.toNat_of_nonneg hnn, Int.emod_emod_of_dvd _ hdvd, Int.add_mul_emod_self]

/-- C1. Masking correctness: on a dense store built with a power of two length `L` and a
stride shift `s` with `L * 2 ^ s < 2 ^ 64`, the indices `i` and `i + k * L * stride`
(taken modulo `2 ^ 64`, `k` any integer, `stride = 1 << s`) select the same scalar. -/
theorem masking_correctness (h : Heap) (L n s i : Nat) (k : Int)
    (hL : L = 2 ^ n) (hov : L * 2 ^ s < 2 ^ 64) :
    ((dense_parameters.ctor h L s).2.op_index
        (((i : Int) + k * (L : Int) * ((1 <<< s : Nat) : Int)) % 2 ^ 64).toNat
      = (dense_parameters.ctor h L s).2.op_index i)
    ∧ ((((i : Int) + k * (L : Int) * ((1 <<< s : Nat) : Int)) % 2 ^ 64).toNat
          &&& (dense_parameters.ctor h L s).2.mask)
        = (i &&& (dense_parameters.ctor h L s).2.mask) := by
  subst hL
  unfold dense_parameters.mask
  have hle : n + s ≤ 64 := by
    by_contra hc
    have h1 : 2 ^ 64 < 2 ^ (n + s) := Nat.pow_lt_pow_right (by norm_num) (by omega)
    rw [pow_add] at h1
    exact absurd (lt_trans hov h1) (lt_irrefl _)
  have hk : k * ((2 ^ n : Nat) : Int) * ((1 <<< s : Nat) : Int) = k * ((2 ^ (n + s) : Nat) : Int) := by
    rw [Nat.one_shiftLeft, pow_add]
    push_cast
    ring
  have hoff : ((((i : Int) + k * ((2 ^ n : Nat) : Int) * ((1 <<< s : Nat) : Int)) % 2 ^ 64).toNat
          &&& (dense_parameters.ctor h (2 ^ n) s).2._weight_mask)
        = (i &&& (dense_parameters.ctor h (2 ^ n) s).2._weight_mask) := by
    rw [ctor_mask h n s hov, Nat.and_pow_two_sub_one_eq_mod, Nat.and_pow_two_sub_one_eq_mod, hk]
    exact masked_offset_shift (n + s) i k hle
  refine ⟨?_, hoff⟩
  unfold dense_parameters.op_index
  rw [hoff]

/-- A concrete instance of `masking_correctness`: length 4, stride shift 1, index 5, `k = -3`,
so the index `5 - 3 * 8` taken modulo `2 ^ 64`. -/
theorem masking_correctness_witness :
    (dense_parameters.ctor Heap.empty 4 1).2.op_index
        ((((5 : Nat) : Int) + (-3) * ((4 : Nat) : Int) * ((1 <<< 1 : Nat) : Int)) % 2 ^ 64).toNat
      = (dense_parameters.ctor Heap.empty 4 1).2.op_index 5 :=
  (masking_correctness Heap.empty 4 2 1 5 (-3) (by norm_num) (by norm_num)).1

/-! ## C2: the masked offset stays inside the buffer -/

/-- The buffer of a store built by the constructor: a fresh block of `length << stride_shift`
zero scalars. -/
theorem ctor_block (h : Heap) (L s : Nat) :
    (dense_parameters.ctor h L s).2._begin = ⟨some h.blocks.length, 0⟩ ∧
    (dense_parameters.ctor h L s).1.block h.blocks.length
      = some (List.replicate (shl64 L s) 0) := by
  refine ⟨rfl, ?_⟩
  simp only [dense_parameters.ctor]
  exact Heap.block_calloc_new h (shl64 L s)

/-- The masked offset is below the size of the buffer. -/
theorem masked_lt (h : Heap) (n s i : Nat) (hov : 2 ^ n * 2 ^ s < 2 ^ 64) :
    (i &&& (dense_parameters.ctor h (2 ^ n) s).2._weight_mask) < shl64 (2 ^ n) s := by
  rw [ctor_mask h n s hov, Nat.and_pow_two_sub_one_eq_mod, shl64_eq_mul _ _ hov, ← pow_add]
  exact Nat.mod_lt _ (by positivity)

/-- C2, as amended. On a dense store built with a power of two length `L` and a stride shift
`s` such that `L << s` does not overflow (`L * 2 ^ s < 2 ^ 64`), for every index `i` the
address `address(i)` is the scalar at offset `i & mask` of the buffer, that offset is below
the allocated size `L << s`, and the access succeeds (on the fresh store it reads `0`). -/
theorem address_in_bounds (h : Heap) (L n s i : Nat) (hL : L = 2 ^ n)
    (hov : L * 2 ^ s < 2 ^ 64) :
    (dense_parameters.ctor h L s).2.op_index i
        = ⟨some h.blocks.length, i &&& (dense_parameters.ctor h L s).2.mask⟩ ∧
    (i &&& (dense_parameters.ctor h L s).2.mask) < shl64 L s ∧
    ((dense_parameters.ctor h L s).1.block h.blocks.length).map List.length
        = some (shl64 L s) ∧
    (dense_parameters.ctor h L s).1.read ((dense_parameters.ctor h L s).2.op_index i)
        = some 0 := by
  subst hL
  have hlt := masked_lt h n s i hov
  obtain ⟨hb, hblk⟩ := ctor_block h (2 ^ n) s
  have hop : (dense_parameters.ctor h (2 ^ n) s).2.op_index i
      = ⟨some h.blocks.length, i &&& (dense_parameters.ctor h (2 ^ n) s).2._weight_mask⟩ := by
    simp [dense_parameters.op_index, hb, Ptr.add]
  refine ⟨hop, hlt, ?_, ?_⟩
  · rw [hblk]; simp
  · rw [hop]
    simp only [Heap.read, hblk]
    rw [List.getElem?_replicate]
    simp [hlt]

/-- A concrete instance of `address_in_bounds`: length 4, stride shift 1, index 13. -/
theorem address_in_bounds_witness :
    (dense_parameters.ctor Heap.empty 4 1).2.op_index 13
        = ⟨some Heap.empty.blocks.length, 13 &&& (dense_parameters.ctor Heap.empty 4 1).2.mask⟩ ∧
    (13 &&& (dense_parameters.ctor Heap.empty 4 1).2.mask) < shl64 4 1 ∧
    ((dense_parameters.ctor Heap.empty 4 1).1.block Heap.empty.blocks.length).map List.length
        = some (shl64 4 1) ∧
    (dense_parameters.ctor Heap.empty 4 1).1.read
        ((dense_parameters.ctor Heap.empty 4 1).2.op_index 13) = some 0 :=
  address_in_bounds Heap.empty 4 2 1 13 (by norm_num) (by norm_num)

/-- C2, as stated, fails: the length `2 ^ 63` is a power of two, and with stride shift 1 the
size `length << stride_shift` wraps to `0`, so the buffer has no scalar at all while the mask
is `2 ^ 64 - 1`; `address(5)` is then offset 5, not below the allocated size, and the access
is out of bounds. -/
theorem address_in_bounds_counterexample :
    shl64 (2 ^ 63) 1 = 0 ∧
    (dense_parameters.ctor Heap.empty (2 ^ 63) 1).2.mask = 2 ^ 64 - 1 ∧
    (dense_parameters.ctor Heap.empty (2 ^ 63) 1).1.block 0 = some [] ∧
    (dense_parameters.ctor Heap.empty (2 ^ 63) 1).2.op_index 5 = ⟨some 0, 5⟩ ∧
    ¬ ((5 &&& (dense_parameters.ctor Heap.empty (2 ^ 63) 1).2.mask) < shl64 (2 ^ 63) 1) ∧
    (dense_parameters.ctor Heap.empty (2 ^ 63) 1).1.read
        ((dense_parameters.ctor Heap.empty (2 ^ 63) 1).2.op_index 5) = none := by
  decide

/-! ## C3, C4: strided addressing -/

theorem shl32_one (s : Nat) (hs : s < 32) : shl32 1 s = 2 ^ s := by
  unfold shl32
  rw [Nat.one_shiftLeft]
  exact Nat.mod_eq_of_lt (Nat.pow_lt_pow_right (by norm_num) hs)

theorem pow_sum_le (n s : Nat) (hov : 2 ^ n * 2 ^ s < 2 ^ 64) : n + s ≤ 64 := by
  by_contra hc
  have h1 : 2 ^ 64 < 2 ^ (n + s) := Nat.pow_lt_pow_right (by norm_num) (by omega)
  rw [pow_add] at h1
  omega

/-- The constructor, given a power of two length that does not overflow and a stride shift
below 32, builds a store that is valid and aligned. -/
theorem ctor_valid (h : Heap) (n s : Nat) (hov : 2 ^ n * 2 ^ s < 2 ^ 64) (hs : s < 32) :
    (dense_parameters.ctor h (2 ^ n) s).2.valid (dense_parameters.ctor h (2 ^ n) s).1 ∧
    (dense_parameters.ctor h (2 ^ n) s).2.aligned := by
  have hm := ctor_mask h n s hov
  obtain ⟨hb, hblk⟩ := ctor_block h (2 ^ n) s
  have hstride : (dense_parameters.ctor h (2 ^ n) s).2._stride = 2 ^ s := shl32_one s hs
  have hpos : 0 < 2 ^ (n + s) := by positivity
  have hsz : 2 ^ (n + s) - 1 + 1 = 2 ^ (n + s) := by omega
  refine ⟨⟨by rw [hb], ⟨h.blocks.length, by rw [hb], ?_⟩, by rw [hstride]; positivity, ?_⟩,
    hstride, n + s, by simp [dense_parameters.ctor], pow_sum_le n s hov, hm⟩
  · rw [hblk, hm, hsz, shl64_eq_mul _ _ hov, ← pow_add]; simp
  · rw [hm, hsz, hstride, pow_add]; simp

/-- The offset of a bucket in an aligned store is a multiple of the stride, and the whole
bucket lies inside the buffer. -/
theorem bucket_offset (st : dense_parameters) (ha : st.aligned) (b : Nat) :
    ((shl64 b st._stride_shift) &&& st._weight_mask) % st._stride = 0 ∧
    ((shl64 b st._stride_shift) &&& st._weight_mask) + st._stride ≤ st._weight_mask + 1 := by
  obtain ⟨hst, m, hsm, hm64, hmask⟩ := ha
  obtain ⟨d, rfl⟩ := Nat.exists_eq_add_of_le hsm
  have hd2 : 2 ^ (st._stride_shift + d) ∣ 2 ^ 64 := pow_dvd_pow 2 hm64
  have hoff : ((shl64 b st._stride_shift) &&& st._weight_mask)
      = 2 ^ st._stride_shift * (b % 2 ^ d) := by
    rw [hmask, Nat.and_pow_two_sub_one_eq_mod]
    unfold shl64
    rw [Nat.shiftLeft_eq, Nat.mod_mod_of_dvd _ hd2, pow_add, Nat.mul_comm b,
      Nat.mul_mod_mul_left]
  have hqpos : 0 < 2 ^ d := by positivity
  have hlt : b % 2 ^ d + 1 ≤ 2 ^ d := Nat.mod_lt _ hqpos
  have hsz : 2 ^ (st._stride_shift + d) - 1 + 1 = 2 ^ st._stride_shift * 2 ^ d := by
    rw [pow_add]
    have : 0 < 2 ^ st._stride_shift * 2 ^ d := by positivity
    omega
  rw [hoff, hst, hmask, hsz]
  refine ⟨Nat.mul_mod_right _ _, ?_⟩
  calc 2 ^ st._stride_shift * (b % 2 ^ d) + 2 ^ st._stride_shift
      = 2 ^ st._stride_shift * (b % 2 ^ d + 1) := by ring
    _ ≤ 2 ^ st._stride_shift * 2 ^ d := Nat.mul_le_mul_left _ hlt

/-- C3. On both stores `strided_index(i)` is `address(i << stride_shift)`; on a dense store
that is the scalar at offset `(i << stride_shift) & mask`, which on a store built from a power
of two length is a bucket boundary (a multiple of the stride).  The store of length 4 and
stride shift 1 has 8 scalars, mask 7, and `strided_index(5)` is the scalar at offset 2. -/
theorem strided_index_spec (h : Heap) (L n s : Nat) (hL : L = 2 ^ n)
    (hov : L * 2 ^ s < 2 ^ 64) (hs : s < 32) :
    (∀ (st : dense_parameters) (i : Nat),
      st.strided_index i = st.op_index (shl64 i st.stride_shift) ∧
      st.strided_index i = st._begin.add ((shl64 i st.stride_shift) &&& st.mask)) ∧
    (∀ (h1 : Heap) (st : sparse_parameters) (i : Nat),
      st.strided_index h1 i = st.op_index h1 (shl64 i st.stride_shift)) ∧
    (∀ i : Nat,
      (dense_parameters.ctor h L s).2.strided_index i
        = ⟨some h.blocks.length, (shl64 i s) &&& (dense_parameters.ctor h L s).2.mask⟩ ∧
      ((shl64 i s) &&& (dense_parameters.ctor h L s).2.mask)
        % (dense_parameters.ctor h L s).2.stride = 0) ∧
    ((dense_parameters.ctor Heap.empty 4 1).1.block 0).map List.length = some 8 ∧
    (dense_parameters.ctor Heap.empty 4 1).2.mask = 7 ∧
    (dense_parameters.ctor Heap.empty 4 1).2.strided_index 5 = ⟨some 0, 2⟩ := by
  subst hL
  refine ⟨fun st i => ⟨rfl, rfl⟩, fun h1 st i => rfl, fun i => ⟨?_, ?_⟩, by decide, by decide,
    by decide⟩
  · obtain ⟨hb, _⟩ := ctor_block h (2 ^ n) s
    simp only [dense_parameters.strided_index, dense_parameters.op_index, hb, Ptr.add,
      dense_parameters.mask, Nat.zero_add]
    rfl
  · exact (bucket_offset _ (ctor_valid h n s hov hs).2 i).1

/-- A concrete instance of `strided_index_spec`: length 4, stride shift 1. -/
theorem strided_index_spec_witness :
    (dense_parameters.ctor Heap.empty 4 1).2.strided_index 5 = ⟨some 0, 2⟩ :=
  (strided_index_spec Heap.empty 4 2 1 (by norm_num) (by norm_num) (by norm_num)).2.2.2.2.2

/-- A slot of a bucket of a valid, aligned store is a scalar of the buffer. -/
theorem slot_in_buffer (h : Heap) (st : dense_parameters) (hv : st.valid h) (ha : st.aligned)
    (b slot : Nat) (hslot : slot < st._stride) :
    ∃ c blk, ((st.strided_index b).add slot).base = some c ∧ h.block c = some blk ∧
      ((st.strided_index b).add slot).off < blk.length := by
  obtain ⟨hoff, ⟨c, hc, hlen⟩, _, _⟩ := hv
  obtain ⟨_, hle⟩ := bucket_offset st ha b
  cases hblk : h.block c with
  | none => simp [hblk] at hlen
  | some blk =>
    rw [hblk] at hlen
    have hl : blk.length = st._weight_mask + 1 := by simpa using hlen
    refine ⟨c, blk, ?_, hblk, ?_⟩
    · simp [dense_parameters.strided_index, dense_parameters.op_index, Ptr.add, hc]
    · simp only [dense_parameters.strided_index, dense_parameters.op_index, Ptr.add, hoff]
      omega

/-- A store keeps a dense store valid. -/
theorem valid_write (h h1 : Heap) (st : dense_parameters) (p : Ptr) (v : weight)
    (hv : st.valid h) (hw : h.write p v = some h1) : st.valid h1 := by
  obtain ⟨hoff, ⟨c, hc, hlen⟩, hpos, hdiv⟩ := hv
  exact ⟨hoff, ⟨c, hc, by rw [Heap.block_length_write h h1 p v hw c]; exact hlen⟩, hpos, hdiv⟩

/-- Offsets inside buckets: with `K` and `K1` multiples of `c` and both slots below `c`,
`K + slot` and `K1 + slot1` agree exactly when the buckets and the slots agree. -/
theorem bucket_slot_offsets (c K K1 slot slot1 : Nat) (hK : K % c = 0) (hK1 : K1 % c = 0)
    (hs : slot < c) (hs1 : slot1 < c) :
    K + slot = K1 + slot1 ↔ K = K1 ∧ slot = slot1 := by
  constructor
  · intro he
    obtain ⟨a, rfl⟩ := Nat.dvd_of_mod_eq_zero hK
    obtain ⟨a1, rfl⟩ := Nat.dvd_of_mod_eq_zero hK1
    have h1 : (c * a + slot) % c = slot := by
      rw [Nat.mul_add_mod, Nat.mod_eq_of_lt hs]
    have h2 : (c * a1 + slot1) % c = slot1 := by
      rw [Nat.mul_add_mod, Nat.mod_eq_of_lt hs1]
    have h3 : slot = slot1 := by
      rw [← h1, ← h2, he]
    exact ⟨by omega, h3⟩
  · rintro ⟨h1, h2⟩
    rw [h1, h2]

/-- Two slots of buckets of an aligned store are one address exactly when the two buckets have
the same offset and the two slots are the same. -/
theorem bucket_slot_inj (st : dense_parameters) (ha : st.aligned) (b b1 slot slot1 : Nat)
    (hs : slot < st._stride) (hs1 : slot1 < st._stride) :
    (st.strided_index b).add slot = (st.strided_index b1).add slot1 ↔
      (shl64 b st._stride_shift &&& st._weight_mask)
        = (shl64 b1 st._stride_shift &&& st._weight_mask) ∧ slot = slot1 := by
  have hb : st.strided_index b = st._begin.add (shl64 b st._stride_shift &&& st._weight_mask) :=
    rfl
  have hb1 : st.strided_index b1
      = st._begin.add (shl64 b1 st._stride_shift &&& st._weight_mask) := rfl
  rw [hb, hb1, Ptr.add_add, Ptr.add_add, Ptr.add_inj]
  exact bucket_slot_offsets st._stride _ _ slot slot1 (bucket_offset st ha b).1
    (bucket_offset st ha b1).1 hs hs1

/-- C4, as amended.  Stride isolation and read after write on a dense store with the layout
the length constructor builds (live buffer of `mask + 1` scalars, stride `1 << stride_shift`,
power of two size): the write of `v` to slot `slot < stride` of bucket `b` succeeds, reading
that slot gives `v`, every other address of the memory reads as before, and so does every
slot `slot1 < stride` of every bucket `b1` when the bucket is another one (another offset
`(b1 << stride_shift) & mask`) or the slot is another one; the store keeps its layout.  On the
store of length 4 and stride shift 1, writing 3.5 through `strided_index(5)` and reading it
again gives 3.5. -/
theorem stride_isolation (h : Heap) (st : dense_parameters) (hv : st.valid h)
    (ha : st.aligned) (b slot : Nat) (v : weight) (hslot : slot < st.stride) :
    (∃ h1, h.write ((st.strided_index b).add slot) v = some h1 ∧
      h1.read ((st.strided_index b).add slot) = some v ∧
      (∀ q : Ptr, q ≠ (st.strided_index b).add slot → h1.read q = h.read q) ∧
      (∀ b1 slot1 : Nat, slot1 < st.stride →
        ((shl64 b1 st.stride_shift &&& st.mask) ≠ (shl64 b st.stride_shift &&& st.mask) ∨
          slot1 ≠ slot) →
        h1.read ((st.strided_index b1).add slot1) = h.read ((st.strided_index b1).add slot1)) ∧
      st.valid h1) ∧
    (∃ h2, (dense_parameters.ctor Heap.empty 4 1).1.write
        ((dense_parameters.ctor Heap.empty 4 1).2.strided_index 5) weight_3_5 = some h2 ∧
      h2.read ((dense_parameters.ctor Heap.empty 4 1).2.strided_index 5) = some weight_3_5) := by
  constructor
  · obtain ⟨c, blk, hc, hblk, hlt⟩ := slot_in_buffer h st hv ha b slot hslot
    have hw := Heap.write_some h _ v c blk hc hblk hlt
    refine ⟨_, hw, Heap.read_write_same h _ _ v hw,
      fun q hq => Heap.read_write_other h _ _ q v hw hq, ?_, valid_write h _ st _ v hv hw⟩
    intro b1 slot1 hslot1 hne
    apply Heap.read_write_other h _ _ _ v hw
    intro he
    have := (bucket_slot_inj st ha b1 b slot1 slot hslot1 hslot).1 he
    rcases hne with hne | hne
    · exact hne this.1
    · exact hne this.2
  · exact ⟨_, rfl, by decide⟩

/-- A concrete instance of `stride_isolation`: the store of length 4 and stride shift 1 on a
buffer holding 1 to 8; 3.5 is written to slot 1 of bucket 5 (offset 3) and read back, slot 0 of
the same bucket (offset 2) still reads 3 and slot 1 of bucket 2 (offset 5) still reads 6. -/
theorem stride_isolation_witness :
    ∃ h1, (Heap.mk [some [1, 2, 3, 4, 5, 6, 7, 8]] []).write
        (((dense_parameters.ctor Heap.empty (2 ^ 2) 1).2.strided_index 5).add 1) weight_3_5
          = some h1 ∧
      h1.read (((dense_parameters.ctor Heap.empty (2 ^ 2) 1).2.strided_index 5).add 1)
        = some weight_3_5 ∧
      h1.read (((dense_parameters.ctor Heap.empty (2 ^ 2) 1).2.strided_index 5).add 0) = some 3 ∧
      h1.read (((dense_parameters.ctor Heap.empty (2 ^ 2) 1).2.strided_index 2).add 1)
        = some 6 := by
  obtain ⟨h1, hw, hr, _, hb, _⟩ := (stride_isolation (Heap.mk [some [1, 2, 3, 4, 5, 6, 7, 8]] [])
    (dense_parameters.ctor Heap.empty (2 ^ 2) 1).2
    ⟨rfl, ⟨0, rfl, by decide⟩, by decide, by decide⟩
    (ctor_valid Heap.empty 2 1 (by norm_num) (by norm_num)).2 5 1 weight_3_5 (by decide)).1
  exact ⟨h1, hw, hr, (hb 5 0 (by decide) (Or.inr (by decide))).trans (by decide),
    (hb 2 1 (by decide) (Or.inl (by decide))).trans (by decide)⟩

/-- C4, as stated, fails on the dense store built with length `2 ^ 63` and stride shift 1:
`length << stride_shift` wraps to 0, the buffer holds no scalar, the stride is 2, and slot 0 of
bucket 5 (offset 10) is outside the buffer, so that it can be neither written nor read. -/
theorem stride_isolation_counterexample :
    (dense_parameters.ctor Heap.empty (2 ^ 63) 1).1.block 0 = some [] ∧
    (0 < (dense_parameters.ctor Heap.empty (2 ^ 63) 1).2.stride ∧
      ((dense_parameters.ctor Heap.empty (2 ^ 63) 1).2.strided_index 5).add 0 = ⟨some 0, 10⟩) ∧
    (dense_parameters.ctor Heap.empty (2 ^ 63) 1).1.write
      (((dense_parameters.ctor Heap.empty (2 ^ 63) 1).2.strided_index 5).add 0) weight_3_5
        = none ∧
    (dense_parameters.ctor Heap.empty (2 ^ 63) 1).1.read
      (((dense_parameters.ctor Heap.empty (2 ^ 63) 1).2.strided_index 5).add 0) = none := by
  decide

/-! ## C5: lazy creation in the sparse store -/

theorem weight_map.find_le (m : weight_map) (k : Nat) : m.find k ≤ m.length := by
  induction m with
  | nil => simp [weight_map.find]
  | cons e m ih =>
    simp only [weight_map.find, List.length_cons]
    split <;> omega

/-- The call `find(k)` gives `end()` exactly when no entry has the key `k`. -/
theorem weight_map.find_eq_end (m : weight_map) (k : Nat) :
    m.find k = m.end_ ↔ ∀ e ∈ m, e.1 ≠ k := by
  unfold weight_map.end_
  induction m with
  | nil => simp [weight_map.find]
  | cons e m ih =>
    simp only [weight_map.find, List.length_cons, List.mem_cons, forall_eq_or_imp]
    by_cases he : e.1 = k
    · simp [he]
    · simp only [he, if_false, Nat.add_right_cancel_iff, ih, ne_eq, not_false_eq_true,
        true_and]

/-- An entry found by `find(k)` has the key `k`. -/
theorem weight_map.entry_find (m : weight_map) (k : Nat) (hf : m.find k ≠ m.end_) :
    ∃ p, m.entry (m.find k) = some (k, p) := by
  unfold weight_map.end_ at hf
  unfold weight_map.entry
  induction m with
  | nil => simp [weight_map.find] at hf
  | cons e m ih =>
    simp only [weight_map.find]
    by_cases he : e.1 = k
    · subst he
      exact ⟨e.2, by simp⟩
    · simp only [weight_map.find, he, if_false, List.length_cons, ne_eq,
        Nat.add_right_cancel_iff] at hf
      obtain ⟨p, hp⟩ := ih hf
      exact ⟨p, by simpa [he] using hp⟩

/-- After the key `k` is appended to a table without it, `find(k)` gives the new entry. -/
theorem weight_map.find_append (m : weight_map) (k : Nat) (p : Ptr)
    (hk : ∀ e ∈ m, e.1 ≠ k) : weight_map.find (m ++ [(k, p)]) k = m.length := by
  induction m with
  | nil => simp [weight_map.find]
  | cons e m ih =>
    simp only [List.mem_cons, forall_eq_or_imp] at hk
    simp [weight_map.find, hk.1, ih hk.2]

/-- The number of buckets a table holds for the key `k`. -/
theorem weight_map.count_absent (m : weight_map) (k : Nat) (hk : ∀ e ∈ m, e.1 ≠ k) :
    m.countP (fun e => decide (e.1 = k)) = 0 := by
  rw [List.countP_eq_zero]
  intro e he
  simpa using hk e he

/-- C5. Lazy creation in the sparse store, with `idx = i & mask`.  On a miss, `address(i)`
appends exactly one entry for `idx` to the table (one more entry, the others unchanged, one
bucket for `idx`), the entry is a fresh block of `stride` zero scalars, the memory after the
call is that of one call of the registered initializer, if any, on the iterator at the new
entry in the memory where the block is all zero, and the result is slot 0 of the new block.
On a hit nothing is created, the initializer is not run, and the result is slot 0 of the
block the table holds for `idx`. -/
theorem lazy_creation (h : Heap) (st : sparse_parameters) (i : Nat) :
    (st._map.find (i &&& st._weight_mask) = st._map.end_ →
      (st.op_index h i).2.1._map
          = st._map ++ [(i &&& st._weight_mask, ⟨some h.blocks.length, 0⟩)] ∧
      (st.op_index h i).2.1._map.length = st._map.length + 1 ∧
      st._map.countP (fun e => decide (e.1 = i &&& st._weight_mask)) = 0 ∧
      (st.op_index h i).2.1._map.countP (fun e => decide (e.1 = i &&& st._weight_mask)) = 1 ∧
      (calloc_mergable_or_throw h st._stride).1.block h.blocks.length
          = some (List.replicate st._stride 0) ∧
      (st.op_index h i).1
          = (match st.fun_ with
            | some f =>
              f ⟨st._map ++ [(i &&& st._weight_mask, ⟨some h.blocks.length, 0⟩)],
                  st._map.length, st._stride⟩ st.default_data
                (calloc_mergable_or_throw h st._stride).1
            | none => (calloc_mergable_or_throw h st._stride).1) ∧
      (sparse_iterator.mk (st._map ++ [(i &&& st._weight_mask, ⟨some h.blocks.length, 0⟩)])
          st._map.length st._stride).deref = some ⟨some h.blocks.length, 0⟩ ∧
      (st.op_index h i).2.2 = some ⟨some h.blocks.length, 0⟩ ∧
      (st.op_index h i).2.1 = { st with _map := (st.op_index h i).2.1._map }) ∧
    (st._map.find (i &&& st._weight_mask) ≠ st._map.end_ →
      ∃ p, st._map.entry (st._map.find (i &&& st._weight_mask))
          = some (i &&& st._weight_mask, p) ∧
        st.op_index h i = (h, st, some p)) := by
  constructor
  · intro hmiss
    have habs := (weight_map.find_eq_end _ _).1 hmiss
    have hins : st._map.insert (i &&& st._weight_mask) ⟨some h.blocks.length, 0⟩
        = st._map ++ [(i &&& st._weight_mask, ⟨some h.blocks.length, 0⟩)] := by
      simp [weight_map.insert, hmiss]
    have hfind := weight_map.find_append st._map (i &&& st._weight_mask)
      ⟨some h.blocks.length, 0⟩ habs
    have hmap : (st.op_index h i).2.1._map
        = st._map ++ [(i &&& st._weight_mask, ⟨some h.blocks.length, 0⟩)] := by
      simp only [sparse_parameters.op_index, hmiss, if_true]
      exact hins
    have hcount := weight_map.count_absent _ _ habs
    refine ⟨hmap, by rw [hmap]; simp, hcount, ?_, Heap.block_calloc_new h st._stride, ?_, ?_,
      ?_, ?_⟩
    · rw [hmap, List.countP_append, hcount]; simp
    · simp only [sparse_parameters.op_index, hmiss, if_true]
      simp only [calloc_mergable_or_throw] at hins hfind ⊢
      rw [hins, hfind]
    · simp [sparse_iterator.deref, weight_map.entry]
    · simp only [sparse_parameters.op_index, hmiss, if_true]
      simp only [calloc_mergable_or_throw] at hins hfind ⊢
      rw [hins, hfind]
      simp [weight_map.entry]
    · simp only [sparse_parameters.op_index, hmiss, if_true]
  · intro hhit
    obtain ⟨p, hp⟩ := weight_map.entry_find _ _ hhit
    refine ⟨p, hp, ?_⟩
    simp only [sparse_parameters.op_index, hhit, if_false, hp, Option.map_some']

/-- Two concrete instances of `lazy_creation` on the sparse store of length 4 and stride
shift 1: the first `address(5)` misses and returns slot 0 of the fresh block 0, the second
one hits and returns the same block without a change. -/
theorem lazy_creation_witness :
    ((sparse_parameters.ctor 4 1 0).op_index Heap.empty 5).2.2 = some ⟨some 0, 0⟩ ∧
    ∃ p, ((sparse_parameters.ctor 4 1 0).op_index Heap.empty 5).2.1.op_index
          ((sparse_parameters.ctor 4 1 0).op_index Heap.empty 5).1 5
        = (((sparse_parameters.ctor 4 1 0).op_index Heap.empty 5).1,
           ((sparse_parameters.ctor 4 1 0).op_index Heap.empty 5).2.1, some p) :=
  ⟨((lazy_creation Heap.empty (sparse_parameters.ctor 4 1 0) 5).1 (by decide)).2.2.2.2.2.2.2.1,
   ((lazy_creation ((sparse_parameters.ctor 4 1 0).op_index Heap.empty 5).1
      ((sparse_parameters.ctor 4 1 0).op_index Heap.empty 5).2.1 5).2 (by decide)).imp
      (fun _ hp => hp.2)⟩

/-! ## C6: iteration over a dense store -/

/-- The slot loop over `n` consecutive scalars visits them in order, given more than `n`
tests. -/
theorem slot_walk (p : Ptr) : ∀ (n fuel a : Nat), n < fuel →
    weight_iterator_iterator.walk fuel ⟨p.add a⟩ ⟨p.add (a + n)⟩
      = some ((List.range n).map (fun j => (⟨p.add (a + j)⟩ : weight_iterator_iterator))) := by
  intro n
  induction n with
  | zero =>
    intro fuel a hf
    obtain ⟨f, rfl⟩ := Nat.exists_eq_succ_of_ne_zero (by omega : fuel ≠ 0)
    simp [weight_iterator_iterator.walk, weight_iterator_iterator.ne]
  | succ n ih =>
    intro fuel a hf
    obtain ⟨f, rfl⟩ := Nat.exists_eq_succ_of_ne_zero (by omega : fuel ≠ 0)
    have hne : p.add a ≠ p.add (a + (n + 1)) := by
      rw [Ne, Ptr.add_inj]; omega
    have hstep : (p.add a).add 1 = p.add (a + 1) := Ptr.add_add p a 1
    have hlast : p.add (a + (n + 1)) = p.add (a + 1 + n) := by
      rw [Ptr.add_inj]; omega
    simp only [weight_iterator_iterator.walk, weight_iterator_iterator.ne, hne, ne_eq,
      not_false_eq_true, decide_True, if_true, weight_iterator_iterator.incr, hstep]
    rw [hlast, ih f (a + 1) (by omega), List.range_succ_eq_map]
    simp only [Option.map_some', List.map_cons, List.map_map, Nat.add_zero]
    congr 2
    apply List.map_congr_left
    intro j _
    simp only [Function.comp, Nat.succ_eq_add_one]
    congr 2
    omega

/-- The slot loop has not ended after `n` tests or fewer. -/
theorem slot_walk_none (p : Ptr) : ∀ (fuel n a : Nat), fuel ≤ n →
    weight_iterator_iterator.walk fuel ⟨p.add a⟩ ⟨p.add (a + n)⟩ = none := by
  intro fuel
  induction fuel with
  | zero => intro n a _; rfl
  | succ f ih =>
    intro n a hf
    have hne : p.add a ≠ p.add (a + n) := by
      rw [Ne, Ptr.add_inj]; omega
    have hstep : (p.add a).add 1 = p.add (a + 1) := Ptr.add_add p a 1
    have hlast : p.add (a + n) = p.add (a + 1 + (n - 1)) := by
      rw [Ptr.add_inj]; omega
    simp only [weight_iterator_iterator.walk, weight_iterator_iterator.ne, hne, ne_eq,
      not_false_eq_true, decide_True, if_true, weight_iterator_iterator.incr, hstep]
    rw [hlast, ih (n - 1) (a + 1) (by omega)]
    rfl

/-- The bucket loop over `n` buckets of `c > 0` scalars visits them in order, given more
than `n` tests. -/
theorem bucket_walk (p b0 : Ptr) (c : Nat) (hc : 0 < c) (last : dense_iterator) :
    ∀ (n fuel a : Nat), n < fuel → last._current = p.add ((a + n) * c) →
    dense_iterator.walk fuel ⟨p.add (a * c), b0, c⟩ last
      = some ((List.range n).map (fun j => (⟨p.add ((a + j) * c), b0, c⟩ : dense_iterator))) := by
  intro n
  induction n with
  | zero =>
    intro fuel a hf hl
    obtain ⟨f, rfl⟩ := Nat.exists_eq_succ_of_ne_zero (by omega : fuel ≠ 0)
    simp [dense_iterator.walk, dense_iterator.ne, hl]
  | succ n ih =>
    intro fuel a hf hl
    obtain ⟨f, rfl⟩ := Nat.exists_eq_succ_of_ne_zero (by omega : fuel ≠ 0)
    have hlt : a * c < (a + (n + 1)) * c := Nat.mul_lt_mul_of_pos_right (by omega) hc
    have hne : p.add (a * c) ≠ last._current := by
      rw [hl, Ne, Ptr.add_inj]; omega
    have hstep : (p.add (a * c)).add c = p.add ((a + 1) * c) := by
      rw [Ptr.add_add, Nat.add_mul, Nat.one_mul]
    have hl1 : last._current = p.add ((a + 1 + n) * c) := by
      rw [hl]; congr 2; omega
    simp only [dense_iterator.walk, dense_iterator.ne, hne, ne_eq, not_false_eq_true,
      decide_True, if_true, dense_iterator.incr, hstep]
    rw [ih f (a + 1) (by omega) hl1, List.range_succ_eq_map]
    simp only [Option.map_some', List.map_cons, List.map_map, Nat.add_zero]
    congr 2
    apply List.map_congr_left
    intro j _
    simp only [Function.comp, Nat.succ_eq_add_one]
    congr 3
    omega

/-- The bucket loop has not ended after `n` tests or fewer. -/
theorem bucket_walk_none (p b0 : Ptr) (c : Nat) (hc : 0 < c) (last : dense_iterator) :
    ∀ (fuel n a : Nat), fuel ≤ n → last._current = p.add ((a + n) * c) →
    dense_iterator.walk fuel ⟨p.add (a * c), b0, c⟩ last = none := by
  intro fuel
  induction fuel with
  | zero => intro n a _ _; rfl
  | succ f ih =>
    intro n a hf hl
    have hlt : a * c < (a + n) * c := Nat.mul_lt_mul_of_pos_right (by omega) hc
    have hne : p.add (a * c) ≠ last._current := by
      rw [hl, Ne, Ptr.add_inj]; omega
    have hstep : (p.add (a * c)).add c = p.add ((a + 1) * c) := by
      rw [Ptr.add_add, Nat.add_mul, Nat.one_mul]
    have hl1 : last._current = p.add ((a + 1 + (n - 1)) * c) := by
      rw [hl]; congr 2; omega
    simp only [dense_iterator.walk, dense_iterator.ne, hne, ne_eq, not_false_eq_true,
      decide_True, if_true, dense_iterator.incr, hstep]
    rw [ih (n - 1) (a + 1) (by omega) hl1]
    rfl

/-- Cutting `0 .. n * c - 1` into `n` runs of `c`. -/
theorem range_blocks (c : Nat) : ∀ n : Nat,
    ((List.range n).map (fun q => (List.range c).map (fun j => q * c + j))).flatten
      = List.range (n * c) := by
  intro n
  induction n with
  | zero => simp
  | succ n ih =>
    rw [List.range_succ, List.map_append, List.flatten_append, ih, Nat.add_mul, Nat.one_mul,
      List.range_add]
    simp


/-- The slots of the bucket at `p`, for a stride `c`. -/
theorem bucket_slots (p : Ptr) (c : Nat) :
    weight_iterator_iterator.walk (c + 1) ⟨p⟩ ⟨p.add c⟩
      = some ((List.range c).map (fun j => (⟨p.add j⟩ : weight_iterator_iterator))) ∧
    weight_iterator_iterator.walk c ⟨p⟩ ⟨p.add c⟩ = none := by
  have h1 := slot_walk p c (c + 1) 0 (by omega)
  have h2 := slot_walk_none p c c 0 (le_refl _)
  simp only [Nat.zero_add, Ptr.add_zero] at h1 h2
  exact ⟨h1, h2⟩

/-- Iteration completeness on a dense store whose buffer is a live block of `mask + 1`
scalars cut into buckets of `stride` scalars: the bucket loop from `begin()` to `end()` ends
at the test number `(mask + 1) / stride + 1` and not before, it visits the buckets at offsets
`0, stride, 2 * stride, ...` in address order, the slot loop of each visited bucket ends
after exactly `stride` slots, and the two nested loops together visit the scalars at offsets
`0 .. mask` of the buffer, each once and in order, all of them inside the buffer. -/
theorem iteration_completeness (h : Heap) (st : dense_parameters) (hv : st.valid h) :
    ∃ bs, dense_iterator.walk ((st.mask + 1) / st.stride + 1) st.begin st.end_ = some bs ∧
      dense_iterator.walk ((st.mask + 1) / st.stride) st.begin st.end_ = none ∧
      bs.length = (st.mask + 1) / st.stride ∧
      bs.map dense_iterator.index
        = (List.range ((st.mask + 1) / st.stride)).map (fun q => q * st.stride) ∧
      bs.map dense_iterator.deref
        = (List.range ((st.mask + 1) / st.stride)).map
            (fun q => st._begin.add (q * st.stride)) ∧
      (∀ b ∈ bs, ∃ ws,
        weight_iterator_iterator.walk (st.stride + 1) b.begin b.end_ = some ws ∧
        weight_iterator_iterator.walk st.stride b.begin b.end_ = none ∧
        ws.length = st.stride) ∧
      (bs.map (fun b =>
          ((weight_iterator_iterator.walk (st.stride + 1) b.begin b.end_).getD []).map
            weight_iterator_iterator.deref)).flatten
        = (List.range (st.mask + 1)).map (fun j => st._begin.add j) ∧
      ∀ j, j ≤ st.mask → (h.read (st._begin.add j)).isSome = true := by
  obtain ⟨hoff, ⟨b, hb, hlen⟩, hpos, hdiv⟩ := hv
  unfold dense_parameters.mask dense_parameters.stride
  have hmul : (st._weight_mask + 1) / st._stride * st._stride = st._weight_mask + 1 :=
    Nat.div_mul_cancel (Nat.dvd_of_mod_eq_zero hdiv)
  generalize hnb : (st._weight_mask + 1) / st._stride = nb at hmul
  have hbegin : st.begin = ⟨st._begin.add (0 * st._stride), st._begin, st._stride⟩ := by
    simp [dense_parameters.begin, Ptr.add]
  have hend : st.end_._current = st._begin.add ((0 + nb) * st._stride) := by
    simp only [dense_parameters.end_, Ptr.add_add, Nat.zero_add, hmul]
  have hw := bucket_walk st._begin st._begin st._stride hpos st.end_ nb (nb + 1) 0
    (by omega) hend
  have hn := bucket_walk_none st._begin st._begin st._stride hpos st.end_ nb nb 0
    (le_refl _) hend
  rw [← hbegin] at hw hn
  simp only [Nat.zero_add] at hw
  refine ⟨_, hw, hn, by simp, ?_, ?_, ?_, ?_, ?_⟩
  · rw [List.map_map]
    apply List.map_congr_left
    intro q _
    simp [dense_iterator.index, Ptr.diff, Ptr.add]
  · rw [List.map_map]
    apply List.map_congr_left
    intro q _
    rfl
  · intro bk hbk
    obtain ⟨q, _, rfl⟩ := List.mem_map.1 hbk
    have hs := bucket_slots (st._begin.add (q * st._stride)) st._stride
    exact ⟨_, hs.1, hs.2, by simp⟩
  · rw [List.map_map, ← hmul, ← range_blocks st._stride nb, List.map_flatten, List.map_map]
    congr 1
    apply List.map_congr_left
    intro q _
    have hs := bucket_slots (st._begin.add (q * st._stride)) st._stride
    simp only [Function.comp, dense_iterator.begin, dense_iterator.end_, hs.1, Option.getD_some,
      List.map_map]
    apply List.map_congr_left
    intro j _
    simp [weight_iterator_iterator.deref, Ptr.add_add]
  · intro j hj
    cases hblk : h.block b with
    | none => simp [hblk] at hlen
    | some blk =>
      simp only [hblk, Option.map_some', Option.some.injEq] at hlen
      have hlt : st._begin.off + j < blk.length := by omega
      simp [Heap.read, Ptr.add, hb, hblk, hlt]

theorem iteration_completeness_witness :
    ∃ bs, dense_iterator.walk
        (((dense_parameters.ctor Heap.empty (2 ^ 2) 1).2.mask + 1) /
          (dense_parameters.ctor Heap.empty (2 ^ 2) 1).2.stride + 1)
        (dense_parameters.ctor Heap.empty (2 ^ 2) 1).2.begin
        (dense_parameters.ctor Heap.empty (2 ^ 2) 1).2.end_ = some bs ∧
      bs.length = ((dense_parameters.ctor Heap.empty (2 ^ 2) 1).2.mask + 1) /
          (dense_parameters.ctor Heap.empty (2 ^ 2) 1).2.stride := by
  obtain ⟨bs, h1, _, h3, _⟩ := iteration_completeness
    (dense_parameters.ctor Heap.empty (2 ^ 2) 1).1 (dense_parameters.ctor Heap.empty (2 ^ 2) 1).2
    (ctor_valid Heap.empty 2 1 (by decide) (by decide)).1
  exact ⟨bs, h1, h3⟩


/-- The bucket loop never ends when no multiple of the stride is the offset of `end()`. -/
theorem bucket_walk_miss (p b0 : Ptr) (c t : Nat) (hmiss : ∀ k, k * c ≠ t)
    (last : dense_iterator) (hl : last._current = p.add t) :
    ∀ (fuel a : Nat), dense_iterator.walk fuel ⟨p.add (a * c), b0, c⟩ last = none := by
  intro fuel
  induction fuel with
  | zero => intro a; rfl
  | succ f ih =>
    intro a
    have hne : p.add (a * c) ≠ last._current := by
      rw [hl, Ne, Ptr.add_inj]; exact hmiss a
    have hstep : (p.add (a * c)).add c = p.add ((a + 1) * c) := by
      rw [Ptr.add_add, Nat.add_mul, Nat.one_mul]
    simp only [dense_iterator.walk, dense_iterator.ne, hne, ne_eq, not_false_eq_true,
      decide_True, if_true, dense_iterator.incr, hstep]
    rw [ih (a + 1)]
    rfl

/-- C6. Iteration over a dense store does not end on the store `B` built with length 1 and
stride shift 2 after it adopts by `shallow_copy` the store `A` built with length 2 and stride
shift 0: `B` has the 2 scalars of `A` as buffer, mask 1, stride shift 0 and still stride 4, so
`(mask + 1) / stride` is 0, while the bucket loop from `begin()` steps over the offsets 0, 4,
8, ... and never meets `end()` at offset 2, whatever the number of tests; the first bucket it
visits has slots at offsets 2 and 3, outside the buffer. -/
theorem iteration_not_ending :
    (((dense_parameters.ctor (dense_parameters.ctor Heap.empty 2 0).1 1 2).2.shallow_copy
        (dense_parameters.ctor Heap.empty 2 0).2).stride = 4 ∧
      ((dense_parameters.ctor (dense_parameters.ctor Heap.empty 2 0).1 1 2).2.shallow_copy
        (dense_parameters.ctor Heap.empty 2 0).2).stride_shift = 0 ∧
      ((dense_parameters.ctor (dense_parameters.ctor Heap.empty 2 0).1 1 2).2.shallow_copy
        (dense_parameters.ctor Heap.empty 2 0).2).mask = 1 ∧
      ((dense_parameters.ctor (dense_parameters.ctor Heap.empty 2 0).1 1 2).2.shallow_copy
        (dense_parameters.ctor Heap.empty 2 0).2)._begin = ⟨some 0, 0⟩) ∧
    (∀ fuel : Nat, dense_iterator.walk fuel
      ((dense_parameters.ctor (dense_parameters.ctor Heap.empty 2 0).1 1 2).2.shallow_copy
        (dense_parameters.ctor Heap.empty 2 0).2).begin
      ((dense_parameters.ctor (dense_parameters.ctor Heap.empty 2 0).1 1 2).2.shallow_copy
        (dense_parameters.ctor Heap.empty 2 0).2).end_ = none) ∧
    dense_iterator.walk 50
      ((dense_parameters.ctor (dense_parameters.ctor Heap.empty 2 0).1 1 2).2.shallow_copy
        (dense_parameters.ctor Heap.empty 2 0).2).begin
      ((dense_parameters.ctor (dense_parameters.ctor Heap.empty 2 0).1 1 2).2.shallow_copy
        (dense_parameters.ctor Heap.empty 2 0).2).end_ = none ∧
    (dense_parameters.ctor (dense_parameters.ctor Heap.empty 2 0).1 1 2).1.read
      ((dense_parameters.ctor (dense_parameters.ctor Heap.empty 2 0).1 1 2).2.shallow_copy
        (dense_parameters.ctor Heap.empty 2 0).2).begin.begin.incr.incr.deref = none := by
  refine ⟨by decide, ?_, by decide, by decide⟩
  intro fuel
  exact bucket_walk_miss ⟨some 0, 0⟩ ⟨some 0, 0⟩ 4 2 (fun k => by omega) _ rfl fuel 0

/-! ## C7: stride and stride shift -/

/-- C7. The stride is not kept equal to `1 << stride_shift`: a default-constructed dense store
that adopts by `shallow_copy` a store built with length 4 and stride shift 1 has stride shift 1
and stride 1, while `1 << 1` is 2; the setter `stride_shift(1)` on a store built with stride
shift 0 gives the same mismatch; and so do both operations on the sparse store.  The
constructors themselves set the stride to `1 << stride_shift`. -/
theorem stride_consistency_broken :
    ((dense_parameters.default_ctor.shallow_copy
        (dense_parameters.ctor Heap.empty 4 1).2).stride_shift = 1 ∧
      (dense_parameters.default_ctor.shallow_copy
        (dense_parameters.ctor Heap.empty 4 1).2).stride = 1 ∧
      shl32 1 (dense_parameters.default_ctor.shallow_copy
        (dense_parameters.ctor Heap.empty 4 1).2).stride_shift = 2) ∧
    (((dense_parameters.ctor Heap.empty 4 0).2.set_stride_shift 1).stride = 1 ∧
      shl32 1 ((dense_parameters.ctor Heap.empty 4 0).2.set_stride_shift 1).stride_shift = 2) ∧
    (((sparse_parameters.default_ctor 0).shallow_copy
        (sparse_parameters.ctor 4 1 0)).stride = 1 ∧
      shl32 1 ((sparse_parameters.default_ctor 0).shallow_copy
        (sparse_parameters.ctor 4 1 0)).stride_shift = 2) ∧
    (((sparse_parameters.ctor 4 0 0).set_stride_shift 1).stride = 1 ∧
      shl32 1 ((sparse_parameters.ctor 4 0 0).set_stride_shift 1).stride_shift = 2) ∧
    (∀ (h : Heap) (length s : Nat),
      (dense_parameters.ctor h length s).2.stride
        = shl32 1 (dense_parameters.ctor h length s).2.stride_shift) ∧
    (∀ (length s u : Nat),
      (sparse_parameters.ctor length s u).stride
        = shl32 1 (sparse_parameters.ctor length s u).stride_shift) := by
  refine ⟨by decide, by decide, by decide, by decide, fun _ _ _ => rfl, fun _ _ _ => rfl⟩


/-! ## C8: shallow copy of a dense store -/

/-- The call `self.shallow_copy(input)` on objects: the object `self` becomes what the method
makes of its value and the value of `input`, every other object is as before. -/
theorem dense_objects.shallow_copy_get (objs : dense_objects) (self input c : Nat) :
    (objs.shallow_copy self input).get c
      = if c = self then (objs.get self).shallow_copy (objs.get input) else objs.get c := by
  by_cases hc : c = self
  · subst hc
    by_cases hi : input = c
    · subst hi
      simp [dense_objects.shallow_copy, dense_parameters.shallow_copy]
    · simp [dense_objects.shallow_copy, dense_parameters.shallow_copy, Function.update, hi]
  · simp [dense_objects.shallow_copy, Function.update, hc]

/-- C8, as amended.  The call `B.shallow_copy(A)` on dense stores given by identity.  After
it the buffer, mask and stride shift of `B` are those `A` had, `B.seeded()` is true, `B[i]`
and `A[i]` are the same address for every `i`, so a write through either is read back through
the other, and the copy constructor gives the same fields whatever the new object held.  When
`A` is another object than `B`, the buffer, mask, stride shift, stride and seeded flag of `A`,
and every other object, are exactly what they were.  When `A` is `B` itself its buffer, mask,
stride shift and stride are what they were and its seeded flag is true. -/
theorem dense_shallow_copy_spec (objs : dense_objects) (a b : Nat) :
    ((objs.shallow_copy b a).get b)._begin = (objs.get a)._begin ∧
    ((objs.shallow_copy b a).get b).mask = (objs.get a).mask ∧
    ((objs.shallow_copy b a).get b).stride_shift = (objs.get a).stride_shift ∧
    ((objs.shallow_copy b a).get b).seeded = true ∧
    (∀ i, ((objs.shallow_copy b a).get b).op_index i
      = ((objs.shallow_copy b a).get a).op_index i) ∧
    (∀ (h h1 : Heap) (i : Nat) (v : weight),
      h.write (((objs.shallow_copy b a).get b).op_index i) v = some h1 →
      h1.read (((objs.shallow_copy b a).get a).op_index i) = some v) ∧
    (∀ (h h1 : Heap) (i : Nat) (v : weight),
      h.write (((objs.shallow_copy b a).get a).op_index i) v = some h1 →
      h1.read (((objs.shallow_copy b a).get b).op_index i) = some v) ∧
    (a ≠ b →
      ((objs.shallow_copy b a).get a)._begin = (objs.get a)._begin ∧
      ((objs.shallow_copy b a).get a).mask = (objs.get a).mask ∧
      ((objs.shallow_copy b a).get a).stride_shift = (objs.get a).stride_shift ∧
      ((objs.shallow_copy b a).get a).stride = (objs.get a).stride ∧
      ((objs.shallow_copy b a).get a).seeded = (objs.get a).seeded ∧
      (objs.shallow_copy b a).get a = objs.get a) ∧
    (∀ c, c ≠ b → (objs.shallow_copy b a).get c = objs.get c) ∧
    (a = b →
      ((objs.shallow_copy b a).get a)._begin = (objs.get a)._begin ∧
      ((objs.shallow_copy b a).get a).mask = (objs.get a).mask ∧
      ((objs.shallow_copy b a).get a).stride_shift = (objs.get a).stride_shift ∧
      ((objs.shallow_copy b a).get a).stride = (objs.get a).stride ∧
      ((objs.shallow_copy b a).get a).seeded = true) ∧
    (objs.shallow_copy b a).get b = (objs.get b).shallow_copy (objs.get a) ∧
    (∀ uninit : dense_parameters,
      (dense_parameters.copy_ctor uninit (objs.get a))._begin = (objs.get a)._begin ∧
      (dense_parameters.copy_ctor uninit (objs.get a)).mask = (objs.get a).mask ∧
      (dense_parameters.copy_ctor uninit (objs.get a)).stride_shift
        = (objs.get a).stride_shift ∧
      (dense_parameters.copy_ctor uninit (objs.get a)).seeded = true) := by
  have hb : (objs.shallow_copy b a).get b = (objs.get b).shallow_copy (objs.get a) := by
    rw [dense_objects.shallow_copy_get, if_pos rfl]
  have hother : ∀ c, c ≠ b → (objs.shallow_copy b a).get c = objs.get c := by
    intro c hc
    rw [dense_objects.shallow_copy_get, if_neg hc]
  have hidx : ∀ i, ((objs.shallow_copy b a).get b).op_index i
      = ((objs.shallow_copy b a).get a).op_index i := by
    intro i
    by_cases hab : a = b
    · rw [hab]
    · rw [hb, hother a hab]
      rfl
  refine ⟨by rw [hb]; rfl, by rw [hb]; rfl, by rw [hb]; rfl, by rw [hb]; rfl, hidx, ?_, ?_, ?_,
    hother, ?_, hb, fun _ => ⟨rfl, rfl, rfl, rfl⟩⟩
  · intro h h1 i v hw
    rw [hidx] at hw
    exact Heap.read_write_same h h1 _ v hw
  · intro h h1 i v hw
    rw [hidx]
    exact Heap.read_write_same h h1 _ v hw
  · intro hab
    rw [hother a hab]
    exact ⟨rfl, rfl, rfl, rfl, rfl, rfl⟩
  · intro hab
    subst hab
    rw [hb]
    exact ⟨rfl, rfl, rfl, rfl, rfl⟩

/-- A concrete instance of `dense_shallow_copy_spec`: object 0 is the store built with length
4 and stride shift 1, every other object is default-constructed, and object 1 adopts object
0: object 0 is what it was, and 3.5 written through `operator[](5)` of object 1 is read
through `operator[](5)` of object 0. -/
theorem dense_shallow_copy_spec_witness :
    ((dense_objects.mk (fun o => if o = 0 then (dense_parameters.ctor Heap.empty 4 1).2
        else dense_parameters.default_ctor)).shallow_copy 1 0).get 0
      = (dense_parameters.ctor Heap.empty 4 1).2 ∧
    ∃ h1, (dense_parameters.ctor Heap.empty 4 1).1.write
        ((((dense_objects.mk (fun o => if o = 0 then (dense_parameters.ctor Heap.empty 4 1).2
          else dense_parameters.default_ctor)).shallow_copy 1 0).get 1).op_index 5) weight_3_5
          = some h1 ∧
      h1.read ((((dense_objects.mk (fun o => if o = 0 then (dense_parameters.ctor Heap.empty 4 1).2
          else dense_parameters.default_ctor)).shallow_copy 1 0).get 0).op_index 5)
        = some weight_3_5 :=
  ⟨((dense_shallow_copy_spec (dense_objects.mk (fun o => if o = 0 then
      (dense_parameters.ctor Heap.empty 4 1).2 else dense_parameters.default_ctor)) 0 1).2.2.2.2.2.2.2.1
      (by decide)).2.2.2.2.2,
   _, rfl,
    (dense_shallow_copy_spec (dense_objects.mk (fun o => if o = 0 then
      (dense_parameters.ctor Heap.empty 4 1).2 else dense_parameters.default_ctor)) 0 1).2.2.2.2.2.1
      (dense_parameters.ctor Heap.empty 4 1).1 _ 5 weight_3_5 rfl⟩

/-- C8, as stated, fails when `A` and `B` are one object: the store built with length 4 and
stride shift 1 is not seeded, and after it adopts itself by `shallow_copy` its seeded flag is
true. -/
theorem dense_shallow_copy_spec_counterexample :
    ((dense_objects.mk (fun _ => (dense_parameters.ctor Heap.empty 4 1).2)).get 0).seeded
      = false ∧
    (((dense_objects.mk (fun _ => (dense_parameters.ctor Heap.empty 4 1).2)).shallow_copy
      0 0).get 0).seeded = true := by
  decide

/-! ## C9: shallow copy of a sparse store -/

/-- C9. After `B.shallow_copy(A)` on sparse stores the two tables are separate: with `A`
built with length 4 and `B` default-constructed, `B.seeded()` is true, `B[1]` creates a
bucket (block 0) in the table of `B`, the table of `A` still has no entry for 1, and `A[1]`
then creates a second bucket (block 1) at another address. -/
theorem sparse_shallow_copy_separate_tables :
    ((sparse_parameters.default_ctor 0).shallow_copy (sparse_parameters.ctor 4 0 0)).seeded
      = true ∧
    (((sparse_parameters.default_ctor 0).shallow_copy (sparse_parameters.ctor 4 0 0)).op_index
      Heap.empty 1).2.1._map = [(1, ⟨some 0, 0⟩)] ∧
    (((sparse_parameters.default_ctor 0).shallow_copy (sparse_parameters.ctor 4 0 0)).op_index
      Heap.empty 1).2.2 = some ⟨some 0, 0⟩ ∧
    (sparse_parameters.ctor 4 0 0)._map.find 1 = (sparse_parameters.ctor 4 0 0)._map.end_ ∧
    ((sparse_parameters.ctor 4 0 0).op_index
      (((sparse_parameters.default_ctor 0).shallow_copy
        (sparse_parameters.ctor 4 0 0)).op_index Heap.empty 1).1 1).2.2 = some ⟨some 1, 0⟩ ∧
    ((sparse_parameters.ctor 4 0 0).op_index
      (((sparse_parameters.default_ctor 0).shallow_copy
        (sparse_parameters.ctor 4 0 0)).op_index Heap.empty 1).1 1).1.blocks.length = 2 := by
  decide


/-! ## C10: `set_zero` -/

theorem Heap.inbounds_write (h : Heap) (p : Ptr) (hp : h.inbounds p) (v : weight) :
    ∃ h1, h.write p v = some h1 := by
  obtain ⟨b, n, hb, hn, ho⟩ := hp
  cases hblk : h.block b with
  | none => simp [hblk] at hn
  | some blk =>
    simp only [hblk, Option.map_some', Option.some.injEq] at hn
    exact ⟨_, Heap.write_some h p v b blk hb hblk (by omega)⟩

theorem Heap.inbounds_of_lengths (h h1 : Heap) (p : Ptr)
    (hl : ∀ c, (h1.block c).map List.length = (h.block c).map List.length)
    (hp : h.inbounds p) : h1.inbounds p := by
  obtain ⟨b, n, hb, hn, ho⟩ := hp
  exact ⟨b, n, hb, by rw [hl, hn], ho⟩

/-- The loop of the dense `set_zero` over the `n` buckets from bucket `a` on. -/
theorem dense_set_zero_loop_spec (p b0 : Ptr) (c : Nat) (hc : 0 < c) (last : dense_iterator)
    (offset : Nat) :
    ∀ (n fuel a : Nat) (h : Heap), n < fuel → last._current = p.add ((a + n) * c) →
      (∀ q, a ≤ q → q < a + n → h.inbounds (p.add (q * c + offset))) →
      ∃ h1, dense_parameters.set_zero_loop fuel h ⟨p.add (a * c), b0, c⟩ last offset = some h1 ∧
        (∀ q, a ≤ q → q < a + n → h1.read (p.add (q * c + offset)) = some 0) ∧
        (∀ r : Ptr, (∀ q, a ≤ q → q < a + n → r ≠ p.add (q * c + offset)) →
          h1.read r = h.read r) ∧
        (∀ k, (h1.block k).map List.length = (h.block k).map List.length) := by
  intro n
  induction n with
  | zero =>
    intro fuel a h hf hl _
    obtain ⟨f, rfl⟩ := Nat.exists_eq_succ_of_ne_zero (by omega : fuel ≠ 0)
    refine ⟨h, by simp [dense_parameters.set_zero_loop, dense_iterator.ne, hl], ?_, ?_, ?_⟩
    · intro q h1 h2; omega
    · intro r _; rfl
    · intro k; rfl
  | succ n ih =>
    intro fuel a h hf hl hin
    obtain ⟨f, rfl⟩ := Nat.exists_eq_succ_of_ne_zero (by omega : fuel ≠ 0)
    have hlt : a * c < (a + (n + 1)) * c := Nat.mul_lt_mul_of_pos_right (by omega) hc
    have hne : p.add (a * c) ≠ last._current := by
      rw [hl, Ne, Ptr.add_inj]; omega
    have hstep : (p.add (a * c)).add c = p.add ((a + 1) * c) := by
      rw [Ptr.add_add, Nat.add_mul, Nat.one_mul]
    have hl1 : last._current = p.add ((a + 1 + n) * c) := by
      rw [hl]; congr 2; omega
    obtain ⟨h1, hw⟩ := Heap.inbounds_write h _ (hin a (le_refl _) (by omega)) 0
    have hlen1 := Heap.block_length_write h h1 _ 0 hw
    obtain ⟨h2, hrun, hz, hfr, hlen2⟩ := ih f (a + 1) h1 (by omega) hl1
      (fun q hq1 hq2 => Heap.inbounds_of_lengths h h1 _ hlen1 (hin q (by omega) (by omega)))
    refine ⟨h2, ?_, ?_, ?_, ?_⟩
    · simp only [dense_parameters.set_zero_loop, dense_iterator.ne, hne, ne_eq,
        not_false_eq_true, decide_True, if_true, dense_iterator.incr, dense_iterator.deref,
        hstep, Ptr.add_add, hw]
      exact hrun
    · intro q hq1 hq2
      by_cases hqa : q = a
      · subst hqa
        rw [hfr]
        · exact Heap.read_write_same h h1 _ 0 hw
        · intro q2 h3 h4
          rw [Ne, Ptr.add_inj]
          have : q * c + c ≤ q2 * c := by
            have := Nat.mul_le_mul_right c h3
            rwa [Nat.add_mul, Nat.one_mul] at this
          omega
      · exact hz q (by omega) (by omega)
    · intro r hr
      rw [hfr r (fun q hq1 hq2 => hr q (by omega) (by omega))]
      exact Heap.read_write_other h h1 _ r 0 hw (hr a (le_refl _) (by omega))
    · intro k
      rw [hlen2, hlen1]

/-- The loop of the sparse `set_zero` over the entries of a table. -/
theorem sparse_set_zero_loop_spec (offset : Nat) :
    ∀ (m : weight_map) (h : Heap), (∀ e ∈ m, h.inbounds (e.2.add offset)) →
      ∃ h1, sparse_parameters.set_zero_loop h m offset = some h1 ∧
        (∀ e ∈ m, h1.read (e.2.add offset) = some 0) ∧
        (∀ r : Ptr, (∀ e ∈ m, r ≠ e.2.add offset) → h1.read r = h.read r) ∧
        (∀ k, (h1.block k).map List.length = (h.block k).map List.length) := by
  intro m
  induction m with
  | nil =>
    intro h _
    exact ⟨h, rfl, by simp, fun _ _ => rfl, fun _ => rfl⟩
  | cons e rest ih =>
    intro h hin
    obtain ⟨h1, hw⟩ := Heap.inbounds_write h _ (hin e (List.mem_cons_self _ _)) 0
    have hlen1 := Heap.block_length_write h h1 _ 0 hw
    obtain ⟨h2, hrun, hz, hfr, hlen2⟩ := ih h1
      (fun e1 he1 => Heap.inbounds_of_lengths h h1 _ hlen1 (hin e1 (List.mem_cons_of_mem _ he1)))
    refine ⟨h2, ?_, ?_, ?_, ?_⟩
    · simp only [sparse_parameters.set_zero_loop, hw]
      exact hrun
    · intro e1 he1
      rcases List.mem_cons.1 he1 with rfl | he1
      · by_cases hex : ∃ e2 ∈ rest, e1.2.add offset = e2.2.add offset
        · obtain ⟨e2, he2, heq⟩ := hex
          rw [heq]
          exact hz e2 he2
        · rw [hfr _ (fun e2 he2 heq => hex ⟨e2, he2, heq⟩)]
          exact Heap.read_write_same h h1 _ 0 hw
      · exact hz e1 he1
    · intro r hr
      rw [hfr r (fun e1 he1 => hr e1 (List.mem_cons_of_mem _ he1))]
      exact Heap.read_write_other h h1 _ r 0 hw (hr e (List.mem_cons_self _ _))
    · intro k
      rw [hlen2, hlen1]

/-- C10, as amended.  The method `set_zero(offset)` with `offset < stride`.  On a dense store
whose buffer is a live block of `mask + 1` scalars cut into buckets of `stride` scalars the
loop ends (any number of tests above `(mask + 1) / stride` is enough), slot `offset` of every
bucket reads 0 afterwards, every other address reads what it read before (slot 0 of every
bucket when `offset` is not 0), and every block keeps its size, so the store is still such a
store.  On a sparse store whose table entries each start a live block of `stride` scalars the
same holds for the buckets of the table.  The method assigns no field of the store: mask and
table are those of before. -/
theorem set_zero_spec :
    (∀ (h : Heap) (st : dense_parameters) (offset fuel : Nat), st.valid h →
      offset < st.stride → (st.mask + 1) / st.stride < fuel →
      ∃ h1, st.set_zero fuel h offset = some h1 ∧
        (∀ q, q < (st.mask + 1) / st.stride →
          h1.read (st._begin.add (q * st.stride + offset)) = some 0) ∧
        (∀ r : Ptr, (∀ q, q < (st.mask + 1) / st.stride →
          r ≠ st._begin.add (q * st.stride + offset)) → h1.read r = h.read r) ∧
        (offset ≠ 0 → ∀ q, h1.read (st._begin.add (q * st.stride))
          = h.read (st._begin.add (q * st.stride))) ∧
        (∀ k, (h1.block k).map List.length = (h.block k).map List.length) ∧
        st.valid h1) ∧
    (∀ (h : Heap) (st : sparse_parameters) (offset : Nat), st.valid h →
      offset < st.stride →
      ∃ h1, st.set_zero h offset = some h1 ∧
        (∀ e ∈ st._map, h1.read (e.2.add offset) = some 0) ∧
        (∀ r : Ptr, (∀ e ∈ st._map, r ≠ e.2.add offset) → h1.read r = h.read r) ∧
        (offset ≠ 0 → ∀ e ∈ st._map, h1.read e.2 = h.read e.2) ∧
        (∀ k, (h1.block k).map List.length = (h.block k).map List.length) ∧
        st.valid h1) := by
  constructor
  · intro h st offset fuel hv ho hf
    have hv0 := hv
    obtain ⟨hoff, ⟨b, hb, hlen⟩, hpos, hdiv⟩ := hv
    unfold dense_parameters.mask dense_parameters.stride at *
    have hmul : (st._weight_mask + 1) / st._stride * st._stride = st._weight_mask + 1 :=
      Nat.div_mul_cancel (Nat.dvd_of_mod_eq_zero hdiv)
    generalize hnb : (st._weight_mask + 1) / st._stride = nb at hmul hf
    have hbegin : st.begin = ⟨st._begin.add (0 * st._stride), st._begin, st._stride⟩ := by
      simp [dense_parameters.begin, Ptr.add]
    have hend : st.end_._current = st._begin.add ((0 + nb) * st._stride) := by
      simp only [dense_parameters.end_, Ptr.add_add, Nat.zero_add, hmul]
    have hin : ∀ q, 0 ≤ q → q < 0 + nb →
        h.inbounds (st._begin.add (q * st._stride + offset)) := by
      intro q _ hq
      refine ⟨b, st._weight_mask + 1, hb, hlen, ?_⟩
      have h1 : q * st._stride + st._stride ≤ nb * st._stride := by
        have := Nat.mul_le_mul_right st._stride (by omega : q + 1 ≤ nb)
        rwa [Nat.add_mul, Nat.one_mul] at this
      simp only [Ptr.add, hoff]
      omega
    obtain ⟨h1, hrun, hz, hfr, hl⟩ := dense_set_zero_loop_spec st._begin st._begin st._stride
      hpos st.end_ offset nb fuel 0 h hf hend hin
    rw [← hbegin] at hrun
    refine ⟨h1, hrun, fun q hq => hz q (Nat.zero_le _) (by omega),
      fun r hr => hfr r (fun q _ hq => hr q (by omega)), ?_, hl, ?_⟩
    · intro hne q
      apply hfr
      intro q2 _ _
      rw [Ne, Ptr.add_inj]
      intro heq
      have h2 : (q * st._stride) % st._stride = (q2 * st._stride + offset) % st._stride := by
        rw [heq]
      rw [Nat.mul_mod_left, Nat.add_comm, Nat.add_mul_mod_self_right,
        Nat.mod_eq_of_lt ho] at h2
      exact hne h2.symm
    · exact ⟨hoff, ⟨b, hb, by rw [hl, hlen]⟩, hpos, hdiv⟩
  · intro h st offset hv ho
    unfold sparse_parameters.stride at ho
    have hin : ∀ e ∈ st._map, h.inbounds (e.2.add offset) := by
      intro e he
      obtain ⟨h0, b, hb, hlen⟩ := hv e he
      exact ⟨b, st._stride, hb, hlen, by simp only [Ptr.add, h0]; omega⟩
    obtain ⟨h1, hrun, hz, hfr, hl⟩ := sparse_set_zero_loop_spec offset st._map h hin
    refine ⟨h1, hrun, hz, hfr, ?_, hl, ?_⟩
    · intro hne e he
      apply hfr
      intro e2 he2 heq
      have h3 := congrArg Ptr.off heq
      simp only [Ptr.add, (hv e he).1, (hv e2 he2).1] at h3
      omega
    · intro e he
      obtain ⟨h0, b, hb, hlen⟩ := hv e he
      exact ⟨h0, b, hb, by rw [hl, hlen]⟩

/-- Two concrete instances of `set_zero_spec`.  The dense store of length 4 and stride shift 1
on a buffer holding 1 to 8: `set_zero(1)` ends, slot 1 of bucket 2 (offset 5) reads 0 and slot
0 of that bucket (offset 4) still reads 5.  The sparse store of length 4 and stride shift 1
after `operator[](5)`, its bucket holding 7 and 9: `set_zero(1)` ends, slot 1 of the bucket
reads 0 and slot 0 still reads 7. -/
theorem set_zero_spec_witness :
    (∃ h1, (dense_parameters.ctor Heap.empty (2 ^ 2) 1).2.set_zero 5
        (Heap.mk [some [1, 2, 3, 4, 5, 6, 7, 8]] []) 1 = some h1 ∧
      h1.read ((dense_parameters.ctor Heap.empty (2 ^ 2) 1).2._begin.add
        (2 * (dense_parameters.ctor Heap.empty (2 ^ 2) 1).2.stride + 1)) = some 0 ∧
      h1.read ((dense_parameters.ctor Heap.empty (2 ^ 2) 1).2._begin.add
        (2 * (dense_parameters.ctor Heap.empty (2 ^ 2) 1).2.stride)) = some 5) ∧
    (∃ h2, ((sparse_parameters.ctor 4 1 0).op_index Heap.empty 5).2.1.set_zero
        (Heap.mk [some [7, 9]] []) 1 = some h2 ∧
      h2.read ⟨some 0, 1⟩ = some 0 ∧ h2.read ⟨some 0, 0⟩ = some 7) := by
  have hmap : ((sparse_parameters.ctor 4 1 0).op_index Heap.empty 5).2.1._map
      = [(5, ⟨some 0, 0⟩)] := by decide
  have hmem : (5, (⟨some 0, 0⟩ : Ptr))
      ∈ ((sparse_parameters.ctor 4 1 0).op_index Heap.empty 5).2.1._map := by
    rw [hmap]; simp
  have hv : ((sparse_parameters.ctor 4 1 0).op_index Heap.empty 5).2.1.valid
      (Heap.mk [some [7, 9]] []) := by
    intro e he
    rw [hmap] at he
    simp only [List.mem_singleton] at he
    subst he
    exact ⟨rfl, 0, rfl, by decide⟩
  obtain ⟨h1, hrun, hz, _, hs0, _⟩ := set_zero_spec.1 (Heap.mk [some [1, 2, 3, 4, 5, 6, 7, 8]] [])
    (dense_parameters.ctor Heap.empty (2 ^ 2) 1).2 1 5
    ⟨rfl, ⟨0, rfl, by decide⟩, by decide, by decide⟩ (by decide) (by decide)
  obtain ⟨h2, hrun2, hz2, _, hs2, _⟩ := set_zero_spec.2 (Heap.mk [some [7, 9]] [])
    ((sparse_parameters.ctor 4 1 0).op_index Heap.empty 5).2.1 1 hv (by decide)
  exact ⟨⟨h1, hrun, hz 2 (by decide), (hs0 (by decide) 2).trans (by decide)⟩,
    ⟨h2, hrun2, hz2 _ hmem, (hs2 (by decide) _ hmem).trans (by decide)⟩⟩

/-- C10, as stated, fails on the default-constructed dense store: it has no buffer (`_begin`
is null), mask 0 and stride 1, `begin()` differs from `end()`, and `set_zero(0)` stores through
the null pointer in its first round, which no memory allows, whatever the number of tests. -/
theorem set_zero_spec_counterexample :
    (0 < dense_parameters.default_ctor.stride ∧
      dense_parameters.default_ctor._begin = nullptr ∧
      dense_parameters.default_ctor.begin.ne dense_parameters.default_ctor.end_ = true ∧
      Heap.empty.write (dense_parameters.default_ctor.begin.deref.add 0) 0 = none) ∧
    (∀ (fuel : Nat) (h : Heap), dense_parameters.default_ctor.set_zero fuel h 0 = none) ∧
    dense_parameters.default_ctor.set_zero 5 Heap.empty 0 = none := by
  refine ⟨by decide, ?_, by decide⟩
  intro fuel h
  cases fuel with
  | zero => rfl
  | succ f =>
    have hne : dense_parameters.default_ctor.begin.ne dense_parameters.default_ctor.end_
        = true := by decide
    have hw : h.write (dense_parameters.default_ctor.begin.deref.add 0) 0 = none := rfl
    simp only [dense_parameters.set_zero, dense_parameters.set_zero_loop, hne, if_true, hw]

/-! ## C11: the facade -/

/-- C11. The facade is a pure dispatch.  When the tag `sparse` is true, each of `operator[]`,
`stride_shift()`, `stride()`, `mask()`, `seeded()`, `shallow_copy`, `set_zero` and `share`
returns what the same operation on `sparse_weights` returns, leaves the memory and
`sparse_weights` as that operation leaves them, and leaves the tag and `dense_weights` as they
were; when the tag is false the same holds with `dense_weights` active and `sparse_weights`
left as it was. -/
theorem facade_dispatch (p : parameters) :
    (p.sparse = true →
      (∀ h i, (p.op_index h i).2.2 = (p.sparse_weights.op_index h i).2.2 ∧
        (p.op_index h i).1 = (p.sparse_weights.op_index h i).1 ∧
        (p.op_index h i).2.1.sparse_weights = (p.sparse_weights.op_index h i).2.1 ∧
        (p.op_index h i).2.1.sparse = p.sparse ∧
        (p.op_index h i).2.1.dense_weights = p.dense_weights) ∧
      p.stride_shift = p.sparse_weights.stride_shift ∧
      p.stride = p.sparse_weights.stride ∧
      p.mask = p.sparse_weights.mask ∧
      p.seeded = p.sparse_weights.seeded ∧
      (∀ input : parameters,
        (p.shallow_copy input).sparse_weights
          = p.sparse_weights.shallow_copy input.sparse_weights ∧
        (p.shallow_copy input).sparse = p.sparse ∧
        (p.shallow_copy input).dense_weights = p.dense_weights) ∧
      (∀ fuel h offset, p.set_zero fuel h offset = p.sparse_weights.set_zero h offset) ∧
      (∀ h length, (p.share h length).2.2 = (p.sparse_weights.share h length).2.2 ∧
        (p.share h length).1 = (p.sparse_weights.share h length).1 ∧
        (p.share h length).2.1.sparse_weights = (p.sparse_weights.share h length).2.1 ∧
        (p.share h length).2.1.sparse = p.sparse ∧
        (p.share h length).2.1.dense_weights = p.dense_weights)) ∧
    (p.sparse = false →
      (∀ h i, (p.op_index h i).2.2 = some (p.dense_weights.op_index i) ∧
        (p.op_index h i).1 = h ∧
        (p.op_index h i).2.1 = p) ∧
      p.stride_shift = p.dense_weights.stride_shift ∧
      p.stride = p.dense_weights.stride ∧
      p.mask = p.dense_weights.mask ∧
      p.seeded = p.dense_weights.seeded ∧
      (∀ input : parameters,
        (p.shallow_copy input).dense_weights
          = p.dense_weights.shallow_copy input.dense_weights ∧
        (p.shallow_copy input).sparse = p.sparse ∧
        (p.shallow_copy input).sparse_weights = p.sparse_weights) ∧
      (∀ fuel h offset, p.set_zero fuel h offset = p.dense_weights.set_zero fuel h offset) ∧
      (∀ h length, (p.share h length).2.2 = (p.dense_weights.share h length).2.2 ∧
        (p.share h length).1 = (p.dense_weights.share h length).1 ∧
        (p.share h length).2.1.dense_weights = (p.dense_weights.share h length).2.1 ∧
        (p.share h length).2.1.sparse = p.sparse ∧
        (p.share h length).2.1.sparse_weights = p.sparse_weights)) := by
  constructor
  · intro hs
    simp [parameters.op_index, parameters.stride_shift, parameters.stride, parameters.mask,
      parameters.seeded, parameters.shallow_copy, parameters.set_zero, parameters.share, hs]
  · intro hs
    simp [parameters.op_index, parameters.stride_shift, parameters.stride, parameters.mask,
      parameters.seeded, parameters.shallow_copy, parameters.set_zero, parameters.share, hs]

theorem facade_dispatch_witness :
    (parameters.mk true (dense_parameters.ctor Heap.empty 4 1).2
        (sparse_parameters.ctor 8 0 0)).mask = 7 ∧
    (parameters.mk false (dense_parameters.ctor Heap.empty 4 1).2
        (sparse_parameters.ctor 8 0 0)).stride = 2 :=
  ⟨((facade_dispatch (parameters.mk true (dense_parameters.ctor Heap.empty 4 1).2
      (sparse_parameters.ctor 8 0 0))).1 rfl).2.2.2.1.trans (by decide),
   ((facade_dispatch (parameters.mk false (dense_parameters.ctor Heap.empty 4 1).2
      (sparse_parameters.ctor 8 0 0))).2 rfl).2.2.1.trans (by decide)⟩


/-! ## C12: operations the sparse store does not support -/

/-- C12. On every sparse store `first()` and `share(length)` throw (the `int` 1) instead of
returning, and leave the memory and every field of the store (table, mask, stride shift,
stride, seeded flag, initializer) as they were, no block allocated; the facade's `share`
throws the same and changes nothing when its tag is sparse. -/
theorem unsupported_operations (h : Heap) (st : sparse_parameters) (length : Nat) :
    ((st.first h).2.2 = Except.error (Failure.thrown 1) ∧
      (st.first h).1 = h ∧ (st.first h).2.1 = st) ∧
    ((st.share h length).2.2 = Except.error (Failure.thrown 1) ∧
      (st.share h length).1 = h ∧ (st.share h length).2.1 = st) ∧
    (∀ p : parameters, p.sparse = true →
      (p.share h length).2.2 = Except.error (Failure.thrown 1) ∧
      (p.share h length).1 = h ∧ (p.share h length).2.1 = p) := by
  refine ⟨⟨rfl, rfl, rfl⟩, ⟨rfl, rfl, rfl⟩, ?_⟩
  intro p hs
  cases p with
  | mk sp d s =>
    cases hs
    exact ⟨rfl, rfl, rfl⟩

theorem unsupported_operations_witness :
    ((parameters.mk true dense_parameters.default_ctor (sparse_parameters.ctor 8 0 0)).share
      Heap.empty 8).2.2 = Except.error (Failure.thrown 1) :=
  ((unsupported_operations Heap.empty (sparse_parameters.ctor 8 0 0) 8).2.2
    (parameters.mk true dense_parameters.default_ctor (sparse_parameters.ctor 8 0 0)) rfl).1


/-! ## C13: `share` -/

theorem Heap.block_free_other (h : Heap) (p : Ptr) (c : Nat) (hc : p.base ≠ some c) :
    (h.free p).block c = h.block c := by
  unfold Heap.free
  cases hp : p.base with
  | none => rfl
  | some b =>
    have hne : b ≠ c := fun he => hc (by rw [hp, he])
    simp [Heap.block, List.getElem?_set_ne hne]

theorem Heap.block_free_same (h : Heap) (p : Ptr) (b : Nat) (hp : p.base = some b) :
    (h.free p).block b = none := by
  unfold Heap.free
  simp only [hp, Heap.block]
  by_cases hlt : b < h.blocks.length
  · rw [List.getElem?_set_self hlt]
  · rw [List.getElem?_eq_none (by simp; omega)]

/-- What `share(length)` does to a dense store whose buffer is the live block `b`, of
`length << stride_shift` scalars. -/
theorem dense_share_spec (h : Heap) (st : dense_parameters) (length b : Nat)
    (blk : List weight) (hb : st._begin = ⟨some b, 0⟩) (hblk : h.block b = some blk)
    (hlen : blk.length = shl64 length st._stride_shift)
    (hbytes : shl64 length st._stride_shift < 2 ^ 62) :
    (st.share h length).2.2 = Except.ok () ∧
    (st.share h length).2.1 = { st with _begin := ⟨some h.blocks.length, 0⟩ } ∧
    (st.share h length).1.block h.blocks.length = some blk ∧
    (st.share h length).1.block b = none ∧
    (st.share h length).1.freed = h.freed ++ [b] := by
  have hblt := Heap.block_lt h b blk hblk
  generalize hn : shl64 length st._stride_shift = n at hlen hbytes
  have hq : mul64 n 4 / 4 = n := by
    unfold mul64
    rw [Nat.mod_eq_of_lt (by omega)]
    omega
  have hcopy : ∃ h1, memcpy (mmap h (mul64 n 4)).1 (mmap h (mul64 n 4)).2 st._begin (mul64 n 4)
      = some h1 ∧ h1.block h.blocks.length = some blk ∧ h1.block b = some blk ∧
        h1.freed = h.freed := by
    unfold memcpy
    rw [hq]
    by_cases h0 : n = 0
    · have hnil : blk = [] := List.eq_nil_of_length_eq_zero (by omega)
      refine ⟨_, if_pos h0, ?_, ?_, rfl⟩
      · subst h0
        simp [mmap, hq, hnil, Heap.block]
      · simp only [mmap, Heap.block, List.getElem?_append_left hblt]
        exact hblk
    · have hd : (mmap h (mul64 n 4)).1.block h.blocks.length = some (List.replicate n 0) := by
        simp [mmap, hq, Heap.block]
      have hs : (mmap h (mul64 n 4)).1.block b = some blk := by
        simp only [mmap, Heap.block, List.getElem?_append_left hblt]
        exact hblk
      have hdest : (mmap h (mul64 n 4)).2 = ⟨some h.blocks.length, 0⟩ := rfl
      rw [if_neg h0, hdest, hb]
      simp only [hd, hs, List.length_replicate, Nat.zero_add, hlen, le_refl, and_self, if_true]
      refine ⟨_, rfl, ?_, ?_, rfl⟩
      · have hlen2 : (h.blocks ++ [some (List.replicate n 0)]).length = h.blocks.length + 1 := by
          simp
        simp only [Heap.block, mmap, hq]
        rw [List.getElem?_set_self (by omega)]
        simp [← hlen]
      · simp only [Heap.block, mmap, hq]
        rw [List.getElem?_set_ne (by omega), List.getElem?_append_left hblt]
        exact hblk
  obtain ⟨h1, hm, hnew, hold, hfreed⟩ := hcopy
  have hne : st._begin.base ≠ some h.blocks.length := by
    rw [hb]; simp; omega
  have hshare : st.share h length
      = (h1.free st._begin, { st with _begin := ⟨some h.blocks.length, 0⟩ }, Except.ok ()) := by
    unfold dense_parameters.share
    simp only [hn, hm]
    rfl
  rw [hshare]
  refine ⟨rfl, rfl, ?_, ?_, ?_⟩
  · show (h1.free st._begin).block h.blocks.length = some blk
    rw [Heap.block_free_other h1 _ _ hne, hnew]
  · show (h1.free st._begin).block b = none
    exact Heap.block_free_same h1 _ b (by rw [hb])
  · show (h1.free st._begin).freed = h.freed ++ [b]
    simp [Heap.free, hb, hfreed]

/-- C13. Shared-memory round trip.  For the dense store built with length `L` and stride shift
`s`, at a moment when its buffer is still the live block of `L << s` scalars the constructor
allocated (and its size in bytes fits a `size_t`), `share(L)` returns, the new buffer reads at
every offset `0 .. mask` what the old buffer read there just before the call, every offset
inside the buffer does hold a scalar, the old buffer is released, and `mask()`, `stride()` and
`stride_shift()` are unchanged. -/
theorem share_round_trip (h0 h : Heap) (L s : Nat) (blk : List weight)
    (hblk : h.block h0.blocks.length = some blk) (hlen : blk.length = shl64 L s)
    (hbytes : shl64 L s < 2 ^ 62) :
    ((dense_parameters.ctor h0 L s).2.share h L).2.2 = Except.ok () ∧
    (∀ j, j ≤ (dense_parameters.ctor h0 L s).2.mask →
      ((dense_parameters.ctor h0 L s).2.share h L).1.read
          (((dense_parameters.ctor h0 L s).2.share h L).2.1._begin.add j)
        = h.read ((dense_parameters.ctor h0 L s).2._begin.add j)) ∧
    (∀ j, j < shl64 L s →
      ((dense_parameters.ctor h0 L s).2.share h L).1.read
          (((dense_parameters.ctor h0 L s).2.share h L).2.1._begin.add j) = blk[j]? ∧
      (blk[j]?).isSome = true) ∧
    ((dense_parameters.ctor h0 L s).2.share h L).1.block h0.blocks.length = none ∧
    ((dense_parameters.ctor h0 L s).2.share h L).2.1.mask
      = (dense_parameters.ctor h0 L s).2.mask ∧
    ((dense_parameters.ctor h0 L s).2.share h L).2.1.stride
      = (dense_parameters.ctor h0 L s).2.stride ∧
    ((dense_parameters.ctor h0 L s).2.share h L).2.1.stride_shift
      = (dense_parameters.ctor h0 L s).2.stride_shift := by
  have hb : (dense_parameters.ctor h0 L s).2._begin = ⟨some h0.blocks.length, 0⟩ := rfl
  have hshift : (dense_parameters.ctor h0 L s).2._stride_shift = s := rfl
  obtain ⟨hok, hst, hnew, hold, _⟩ := dense_share_spec h (dense_parameters.ctor h0 L s).2 L
    h0.blocks.length blk hb hblk (by rw [hshift]; exact hlen) (by rw [hshift]; exact hbytes)
  have hread : ∀ j, ((dense_parameters.ctor h0 L s).2.share h L).1.read
      (((dense_parameters.ctor h0 L s).2.share h L).2.1._begin.add j) = blk[j]? := by
    intro j
    rw [hst]
    simp [Heap.read, Ptr.add, hnew]
  have hreadold : ∀ j, h.read ((dense_parameters.ctor h0 L s).2._begin.add j) = blk[j]? := by
    intro j
    rw [hb]
    simp [Heap.read, Ptr.add, hblk]
  refine ⟨hok, fun j _ => by rw [hread, hreadold], ?_, hold, by rw [hst]; rfl, by rw [hst]; rfl,
    by rw [hst]; rfl⟩
  intro j hj
  refine ⟨hread j, ?_⟩
  rw [List.getElem?_eq_getElem (by omega)]
  rfl

theorem share_round_trip_witness :
    ((dense_parameters.ctor Heap.empty 4 1).2.share (dense_parameters.ctor Heap.empty 4 1).1
      4).2.2 = Except.ok () :=
  (share_round_trip Heap.empty (dense_parameters.ctor Heap.empty 4 1).1 4 1
    (List.replicate 8 0) rfl rfl (by decide)).1


/-! ## C14: initializers -/

/-- Storing a list inside live memory: it is read back, nothing else changes. -/
theorem Heap.store_spec : ∀ (vs : List weight) (h : Heap) (p : Ptr),
    (∀ j, j < vs.length → h.inbounds (p.add j)) →
    (∀ j, j < vs.length → (h.store p vs).read (p.add j) = vs[j]?) ∧
    (∀ r : Ptr, (∀ j, j < vs.length → r ≠ p.add j) → (h.store p vs).read r = h.read r) ∧
    (∀ k, ((h.store p vs).block k).map List.length = (h.block k).map List.length) := by
  intro vs
  induction vs with
  | nil =>
    intro h p _
    exact ⟨fun j hj => absurd hj (by simp), fun _ _ => rfl, fun _ => rfl⟩
  | cons v vs ih =>
    intro h p hin
    obtain ⟨h1, hw⟩ := Heap.inbounds_write h p (hin 0 (by simp)) v
    have hlen1 := Heap.block_length_write h h1 p v hw
    have hstore : h.store p (v :: vs) = h1.store (p.add 1) vs := by
      simp only [Heap.store, hw]
    have hin1 : ∀ j, j < vs.length → h1.inbounds ((p.add 1).add j) := by
      intro j hj
      rw [Ptr.add_add]
      exact Heap.inbounds_of_lengths h h1 _ hlen1 (hin (1 + j) (by simp; omega))
    obtain ⟨hrd, hfr, hlen2⟩ := ih h1 (p.add 1) hin1
    rw [hstore]
    refine ⟨?_, ?_, ?_⟩
    · intro j hj
      cases j with
      | zero =>
        rw [Ptr.add_zero, hfr p, Heap.read_write_same h h1 p v hw]
        · simp
        · intro j _
          rw [Ptr.add_add]
          intro he
          have := congrArg Ptr.off he
          simp [Ptr.add] at this
      | succ j =>
        have := hrd j (by simpa using hj)
        rw [Ptr.add_add, Nat.add_comm] at this
        rw [this]
        simp
    · intro r hr
      rw [hfr r]
      · exact Heap.read_write_other h h1 p r v hw (hr 0 (by simp))
      · intro j hj
        rw [Ptr.add_add, Nat.add_comm]
        exact hr (j + 1) (by simpa using hj)
    · intro k
      rw [hlen2, hlen1]

/-- What the initializer of a rule does to a bucket of `c` scalars inside live memory. -/
theorem bucket_rule.run_spec (g : bucket_rule) (k : Nat) (p : Ptr) (c info : Nat) (h : Heap)
    (hin : ∀ j, j < c → h.inbounds (p.add j)) :
    (∀ j, j < c → (g.run k p c info h).read (p.add j)
      = some (g.value k info (h.load p c) j)) ∧
    (∀ r : Ptr, (∀ j, j < c → r ≠ p.add j) → (g.run k p c info h).read r = h.read r) ∧
    (∀ b, ((g.run k p c info h).block b).map List.length = (h.block b).map List.length) := by
  have hl : ((List.range c).map (g.value k info (h.load p c))).length = c := by simp
  obtain ⟨hrd, hfr, hlen⟩ := Heap.store_spec ((List.range c).map (g.value k info (h.load p c)))
    h p (by rw [hl]; exact hin)
  rw [hl] at hrd hfr
  refine ⟨?_, hfr, hlen⟩
  intro j hj
  unfold bucket_rule.run
  rw [hrd j hj]
  simp [hj]

/-- Scalars of two different buckets are at different offsets. -/
theorem bucket_disjoint (c q q2 j j2 : Nat) (hq : q < q2) (hj : j < c) :
    q * c + j < q2 * c + j2 := by
  have h1 : q * c + c ≤ q2 * c := by
    have := Nat.mul_le_mul_right c (by omega : q + 1 ≤ q2)
    rwa [Nat.add_mul, Nat.one_mul] at this
  omega

/-- Reading a bucket is not affected by a change outside it. -/
theorem Heap.load_congr (h h1 : Heap) (p : Ptr) (c : Nat)
    (hr : ∀ j, j < c → h1.read (p.add j) = h.read (p.add j)) : h1.load p c = h.load p c := by
  unfold Heap.load
  apply List.map_congr_left
  intro j hj
  rw [hr j (List.mem_range.1 hj)]

/-- A bucket that reads 0 everywhere. -/
theorem Heap.load_zero (h : Heap) (p : Ptr) (c : Nat)
    (hr : ∀ j, j < c → h.read (p.add j) = some 0) : h.load p c = List.replicate c 0 := by
  unfold Heap.load
  apply List.ext_getElem
  · simp
  · intro j h1 h2
    simp at h1
    simp [hr j h1]

/-- The loop of the dense `set_default` over the `n` buckets from bucket `a` on, for the
initializer of a rule. -/
theorem dense_set_default_loop_spec (g : bucket_rule) (info : Nat) (p : Ptr) (c : Nat)
    (hc : 0 < c) (last : dense_iterator) :
    ∀ (n fuel a : Nat) (h : Heap), n < fuel → last._current = p.add ((a + n) * c) →
      (∀ q, a ≤ q → q < a + n → ∀ j, j < c → h.inbounds (p.add (q * c + j))) →
      ∃ h1, dense_parameters.set_default_loop fuel h ⟨p.add (a * c), p, c⟩ last g.dense info
          = some h1 ∧
        (∀ q, a ≤ q → q < a + n → ∀ j, j < c → h1.read (p.add (q * c + j))
          = some (g.value (q * c) info (h.load (p.add (q * c)) c) j)) ∧
        (∀ r : Ptr, (∀ q, a ≤ q → q < a + n → ∀ j, j < c → r ≠ p.add (q * c + j)) →
          h1.read r = h.read r) ∧
        (∀ k, (h1.block k).map List.length = (h.block k).map List.length) := by
  intro n
  induction n with
  | zero =>
    intro fuel a h hf hl _
    obtain ⟨f, rfl⟩ := Nat.exists_eq_succ_of_ne_zero (by omega : fuel ≠ 0)
    refine ⟨h, by simp [dense_parameters.set_default_loop, dense_iterator.ne, hl], ?_, ?_, ?_⟩
    · intro q h1 h2; omega
    · intro r _; rfl
    · intro k; rfl
  | succ n ih =>
    intro fuel a h hf hl hin
    obtain ⟨f, rfl⟩ := Nat.exists_eq_succ_of_ne_zero (by omega : fuel ≠ 0)
    have hlt : a * c < (a + (n + 1)) * c := Nat.mul_lt_mul_of_pos_right (by omega) hc
    have hne : p.add (a * c) ≠ last._current := by
      rw [hl, Ne, Ptr.add_inj]; omega
    have hstep : (p.add (a * c)).add c = p.add ((a + 1) * c) := by
      rw [Ptr.add_add, Nat.add_mul, Nat.one_mul]
    have hl1 : last._current = p.add ((a + 1 + n) * c) := by
      rw [hl]; congr 2; omega
    have hT : g.dense ⟨p.add (a * c), p, c⟩ info h
        = g.run (a * c) (p.add (a * c)) c info h := by
      simp [bucket_rule.dense, dense_iterator.index, dense_iterator.deref, Ptr.diff, Ptr.add]
    obtain ⟨hrd, hfr0, hlen1⟩ := bucket_rule.run_spec g (a * c) (p.add (a * c)) c info h
      (fun j hj => by rw [Ptr.add_add]; exact hin a (le_refl _) (by omega) j hj)
    obtain ⟨h2, hrun, hz, hfr, hlen2⟩ := ih f (a + 1) (g.run (a * c) (p.add (a * c)) c info h)
      (by omega) hl1
      (fun q hq1 hq2 j hj => Heap.inbounds_of_lengths h _ _ hlen1 (hin q (by omega) (by omega) j hj))
    refine ⟨h2, ?_, ?_, ?_, ?_⟩
    · simp only [dense_parameters.set_default_loop, dense_iterator.ne, hne, ne_eq,
        not_false_eq_true, decide_True, if_true, dense_iterator.incr, hstep, hT]
      exact hrun
    · intro q hq1 hq2 j hj
      by_cases hqa : q = a
      · subst hqa
        rw [hfr]
        · have := hrd j hj
          rwa [Ptr.add_add] at this
        · intro q2 h3 _ j2 _
          rw [Ne, Ptr.add_inj]
          have := bucket_disjoint c q q2 j j2 (by omega) hj
          omega
      · rw [hz q (by omega) (by omega) j hj]
        congr 2
        apply Heap.load_congr
        intro j2 hj2
        apply hfr0
        intro j3 hj3
        rw [Ptr.add_add, Ptr.add_add, Ne, Ptr.add_inj]
        have := bucket_disjoint c a q j3 j2 (by omega) hj3
        omega
    · intro r hr
      rw [hfr r (fun q hq1 hq2 j hj => hr q (by omega) (by omega) j hj)]
      apply hfr0
      intro j hj
      rw [Ptr.add_add]
      exact hr a (le_refl _) (by omega) j hj
    · intro k
      rw [hlen2, hlen1]

/-- The dense `set_default` for the initializer of a rule, on a store whose buffer is a live
block of `mask + 1` scalars cut into buckets of `stride` scalars: it ends, and every slot of
every bucket holds the value the rule gives it from the offset of the bucket and the scalars
the bucket held. -/
theorem dense_set_default_spec (g : bucket_rule) (info : Nat) (h : Heap)
    (st : dense_parameters) (hv : st.valid h) (fuel : Nat)
    (hf : (st._weight_mask + 1) / st._stride < fuel) :
    ∃ h1, st.set_default_info fuel h g.dense info = some h1 ∧
      ∀ q, q < (st._weight_mask + 1) / st._stride → ∀ j, j < st._stride →
        h1.read (st._begin.add (q * st._stride + j))
          = some (g.value (q * st._stride) info
              (h.load (st._begin.add (q * st._stride)) st._stride) j) := by
  obtain ⟨hoff, ⟨b, hb, hlen⟩, hpos, hdiv⟩ := hv
  have hmul : (st._weight_mask + 1) / st._stride * st._stride = st._weight_mask + 1 :=
    Nat.div_mul_cancel (Nat.dvd_of_mod_eq_zero hdiv)
  generalize hnb : (st._weight_mask + 1) / st._stride = nb at hmul hf
  have hbegin : st.begin = ⟨st._begin.add (0 * st._stride), st._begin, st._stride⟩ := by
    simp [dense_parameters.begin, Ptr.add]
  have hend : st.end_._current = st._begin.add ((0 + nb) * st._stride) := by
    simp only [dense_parameters.end_, Ptr.add_add, Nat.zero_add, hmul]
  have hin : ∀ q, 0 ≤ q → q < 0 + nb → ∀ j, j < st._stride →
      h.inbounds (st._begin.add (q * st._stride + j)) := by
    intro q _ hq j hj
    refine ⟨b, st._weight_mask + 1, hb, hlen, ?_⟩
    have h1 := bucket_disjoint st._stride q nb j 0 (by omega) hj
    simp only [Ptr.add, hoff]
    omega
  obtain ⟨h1, hrun, hz, _, _⟩ := dense_set_default_loop_spec g info st._begin st._stride hpos
    st.end_ nb fuel 0 h hf hend hin
  rw [← hbegin] at hrun
  exact ⟨h1, hrun, fun q hq j hj => hz q (Nat.zero_le _) (by omega) j hj⟩

/-- A miss of the sparse `operator[]` with an initializer registered. -/
theorem sparse_op_index_miss (h : Heap) (st : sparse_parameters) (i : Nat) (f : initializer_fn)
    (hf : st.fun_ = some f) (hmiss : st._map.find (i &&& st._weight_mask) = st._map.end_) :
    (st.op_index h i).1
      = f ⟨st._map ++ [(i &&& st._weight_mask, ⟨some h.blocks.length, 0⟩)], st._map.length,
          st._stride⟩ st.default_data (calloc_mergable_or_throw h st._stride).1 ∧
    (st.op_index h i).2.1._map
      = st._map ++ [(i &&& st._weight_mask, ⟨some h.blocks.length, 0⟩)] ∧
    (st.op_index h i).2.2 = some ⟨some h.blocks.length, 0⟩ := by
  have habs := (weight_map.find_eq_end _ _).1 hmiss
  have hins : st._map.insert (i &&& st._weight_mask) ⟨some h.blocks.length, 0⟩
      = st._map ++ [(i &&& st._weight_mask, ⟨some h.blocks.length, 0⟩)] := by
    simp [weight_map.insert, hmiss]
  have hfind := weight_map.find_append st._map (i &&& st._weight_mask)
    ⟨some h.blocks.length, 0⟩ habs
  refine ⟨?_, ?_, ?_⟩
  · simp only [sparse_parameters.op_index, hmiss, if_true, hf]
    simp only [calloc_mergable_or_throw] at hins hfind ⊢
    rw [hins, hfind]
  · simp only [sparse_parameters.op_index, hmiss, if_true]
    exact hins
  · simp only [sparse_parameters.op_index, hmiss, if_true]
    simp only [calloc_mergable_or_throw] at hins hfind ⊢
    rw [hins, hfind]
    simp [weight_map.entry]

/-- Reading inside a block of zeros. -/
theorem Heap.read_zero_block (h : Heap) (b N : Nat) (hblk : h.block b = some (List.replicate N 0))
    (j : Nat) (hj : j < N) : h.read ⟨some b, j⟩ = some 0 := by
  simp [Heap.read, hblk, hj]

/-- Initializers on a store built from a power of two length `2 ^ n` and a stride shift
`s < 32` without overflow, for a pure per-bucket initializer: on the dense store fresh from the
constructor `set_default` ends and every slot below `2 ^ s` of the bucket at
`strided_index(id)` holds the value of the rule at the index `(id << stride_shift) & mask` on
a bucket of zeros; on the sparse store with the initializer registered, `strided_index(id)`
creating the bucket leaves in that slot the value of the rule at the same index on a bucket of
zeros. -/
theorem initializers_uniform_aligned (g : bucket_rule) (n s info u id slot fuel : Nat) (h0 hs : Heap)
    (m : weight_map) (hov : 2 ^ n * 2 ^ s < 2 ^ 64) (hsh : s < 32) (hslot : slot < 2 ^ s)
    (hfuel : 2 ^ n < fuel)
    (hmiss : m.find (shl64 id s &&& (sparse_parameters.ctor (2 ^ n) s u).mask) = m.end_) :
    (∃ hd, (dense_parameters.ctor h0 (2 ^ n) s).2.set_default_info fuel
        (dense_parameters.ctor h0 (2 ^ n) s).1 g.dense info = some hd ∧
      hd.read (((dense_parameters.ctor h0 (2 ^ n) s).2.strided_index id).add slot)
        = some (g.value (shl64 id s &&& (dense_parameters.ctor h0 (2 ^ n) s).2.mask) info
            (List.replicate (2 ^ s) 0) slot)) ∧
    (∃ p, ({ (sparse_parameters.ctor (2 ^ n) s u).set_default_info g.sparse info with
          _map := m }.strided_index hs id).2.2 = some p ∧
      ({ (sparse_parameters.ctor (2 ^ n) s u).set_default_info g.sparse info with
          _map := m }.strided_index hs id).1.read (p.add slot)
        = some (g.value (shl64 id s &&& (sparse_parameters.ctor (2 ^ n) s u).mask) info
            (List.replicate (2 ^ s) 0) slot)) ∧
    (sparse_parameters.ctor (2 ^ n) s u).mask = (dense_parameters.ctor h0 (2 ^ n) s).2.mask ∧
    (sparse_parameters.ctor (2 ^ n) s u).stride = (dense_parameters.ctor h0 (2 ^ n) s).2.stride
    := by
  refine ⟨?_, ?_, rfl, rfl⟩
  · obtain ⟨hv, ha⟩ := ctor_valid h0 n s hov hsh
    have hstride : (dense_parameters.ctor h0 (2 ^ n) s).2._stride = 2 ^ s := shl32_one s hsh
    have hmask := ctor_mask h0 n s hov
    obtain ⟨hb, hblk⟩ := ctor_block h0 (2 ^ n) s
    have hshift : (dense_parameters.ctor h0 (2 ^ n) s).2._stride_shift = s := rfl
    have hpos : 0 < 2 ^ (n + s) := by positivity
    have hsize : (dense_parameters.ctor h0 (2 ^ n) s).2._weight_mask + 1 = 2 ^ n * 2 ^ s := by
      rw [hmask, ← pow_add]; omega
    have hnb : ((dense_parameters.ctor h0 (2 ^ n) s).2._weight_mask + 1) /
        (dense_parameters.ctor h0 (2 ^ n) s).2._stride = 2 ^ n := by
      rw [hsize, hstride]
      exact Nat.mul_div_cancel _ (by positivity)
    obtain ⟨hd, hrun, hz⟩ := dense_set_default_spec g info _ _ hv fuel (by rw [hnb]; exact hfuel)
    obtain ⟨hmod, hle⟩ := bucket_offset _ ha id
    rw [hshift] at hmod hle
    generalize hK : shl64 id s &&& (dense_parameters.ctor h0 (2 ^ n) s).2._weight_mask = K
      at hmod hle
    have hsi : (dense_parameters.ctor h0 (2 ^ n) s).2.strided_index id
        = (dense_parameters.ctor h0 (2 ^ n) s).2._begin.add K := by
      rw [← hK]; rfl
    have hq : K / (dense_parameters.ctor h0 (2 ^ n) s).2._stride
        * (dense_parameters.ctor h0 (2 ^ n) s).2._stride = K :=
      Nat.div_mul_cancel (Nat.dvd_of_mod_eq_zero hmod)
    have hspos : 0 < (dense_parameters.ctor h0 (2 ^ n) s).2._stride := by
      rw [hstride]; positivity
    have hqlt : K / (dense_parameters.ctor h0 (2 ^ n) s).2._stride
        < ((dense_parameters.ctor h0 (2 ^ n) s).2._weight_mask + 1) /
          (dense_parameters.ctor h0 (2 ^ n) s).2._stride := by
      rw [hnb, Nat.div_lt_iff_lt_mul hspos, hstride, ← hsize]
      omega
    have hval := hz _ hqlt slot (by rw [hstride]; exact hslot)
    rw [hq] at hval
    have hload : (dense_parameters.ctor h0 (2 ^ n) s).1.load
        ((dense_parameters.ctor h0 (2 ^ n) s).2._begin.add K)
        (dense_parameters.ctor h0 (2 ^ n) s).2._stride = List.replicate (2 ^ s) 0 := by
      rw [← hstride]
      apply Heap.load_zero
      intro j hj
      rw [Ptr.add_add, hb]
      have hN : shl64 (2 ^ n) s = 2 ^ n * 2 ^ s := shl64_eq_mul _ _ hov
      exact Heap.read_zero_block _ _ _ hblk _ (by simp only [Nat.zero_add]; omega)
    refine ⟨hd, hrun, ?_⟩
    rw [hsi, Ptr.add_add, hval, hload]
    unfold dense_parameters.mask
    rw [hK]
  · have hstride : shl32 1 s = 2 ^ s := shl32_one s hsh
    obtain ⟨hheap, _, hres⟩ := sparse_op_index_miss hs
      { (sparse_parameters.ctor (2 ^ n) s u).set_default_info g.sparse info with _map := m }
      (shl64 id s) g.sparse rfl hmiss
    refine ⟨_, hres, ?_⟩
    have hsi : ({ (sparse_parameters.ctor (2 ^ n) s u).set_default_info g.sparse info with
          _map := m }.strided_index hs id)
        = ({ (sparse_parameters.ctor (2 ^ n) s u).set_default_info g.sparse info with
          _map := m }.op_index hs (shl64 id s)) := rfl
    rw [hsi, hheap]
    have hcs : ({ (sparse_parameters.ctor (2 ^ n) s u).set_default_info g.sparse info with
          _map := m } : sparse_parameters)._stride = 2 ^ s := hstride
    have hdd : ({ (sparse_parameters.ctor (2 ^ n) s u).set_default_info g.sparse info with
          _map := m } : sparse_parameters).default_data = info := rfl
    have hmk : ({ (sparse_parameters.ctor (2 ^ n) s u).set_default_info g.sparse info with
          _map := m } : sparse_parameters)._weight_mask
        = (sparse_parameters.ctor (2 ^ n) s u).mask := rfl
    have hmm : ({ (sparse_parameters.ctor (2 ^ n) s u).set_default_info g.sparse info with
          _map := m } : sparse_parameters)._map = m := rfl
    rw [hcs, hdd, hmk, hmm]
    generalize shl64 id s &&& (sparse_parameters.ctor (2 ^ n) s u).mask = K
    have hT : g.sparse ⟨m ++ [(K, ⟨some hs.blocks.length, 0⟩)], m.length, 2 ^ s⟩ info
          (calloc_mergable_or_throw hs (2 ^ s)).1
        = g.run K ⟨some hs.blocks.length, 0⟩ (2 ^ s) info
          (calloc_mergable_or_throw hs (2 ^ s)).1 := by
      simp [bucket_rule.sparse, sparse_iterator.index, sparse_iterator.deref, weight_map.entry]
    have hblk := Heap.block_calloc_new hs (2 ^ s)
    have hin : ∀ j, j < 2 ^ s → (calloc_mergable_or_throw hs (2 ^ s)).1.inbounds
        ((⟨some hs.blocks.length, 0⟩ : Ptr).add j) := by
      intro j hj
      exact ⟨hs.blocks.length, 2 ^ s, rfl, by rw [hblk]; simp, by simp [Ptr.add]; exact hj⟩
    obtain ⟨hrd, _, _⟩ := bucket_rule.run_spec g K ⟨some hs.blocks.length, 0⟩ (2 ^ s) info
      (calloc_mergable_or_throw hs (2 ^ s)).1 hin
    rw [hT, hrd slot hslot]
    congr 2
    apply Heap.load_zero
    intro j hj
    exact Heap.read_zero_block _ _ _ hblk _ (by simp only [Nat.zero_add]; exact hj)

theorem shl32_one_ge (s : Nat) (hs : 32 ≤ s) : shl32 1 s = 0 := by
  unfold shl32
  rw [Nat.one_shiftLeft]
  exact Nat.mod_eq_zero_of_dvd (Nat.pow_dvd_pow 2 hs)

/-- Storing a list never changes the size of a block. -/
theorem Heap.store_lengths : ∀ (vs : List weight) (h : Heap) (p : Ptr) (k : Nat),
    ((h.store p vs).block k).map List.length = (h.block k).map List.length := by
  intro vs
  induction vs with
  | nil => intro h p k; rfl
  | cons v vs ih =>
    intro h p k
    cases hw : h.write p v with
    | none => simp only [Heap.store, hw]
    | some h1 =>
      simp only [Heap.store, hw]
      rw [ih h1 (p.add 1) k, Heap.block_length_write h h1 p v hw k]

/-- The dense `set_default` loop for the initializer of a rule never changes the size of a
block. -/
theorem dense_set_default_loop_lengths (g : bucket_rule) (info : Nat) (last : dense_iterator) :
    ∀ (fuel : Nat) (h h1 : Heap) (it : dense_iterator),
      dense_parameters.set_default_loop fuel h it last g.dense info = some h1 →
      ∀ k, (h1.block k).map List.length = (h.block k).map List.length := by
  intro fuel
  induction fuel with
  | zero => intro h h1 it hrun; simp [dense_parameters.set_default_loop] at hrun
  | succ f ih =>
    intro h h1 it hrun k
    unfold dense_parameters.set_default_loop at hrun
    by_cases hne : it.ne last = true
    · rw [if_pos hne] at hrun
      rw [ih _ h1 _ hrun k]
      exact Heap.store_lengths _ h _ k
    · rw [if_neg hne] at hrun
      cases hrun
      rfl

/-- C14, as amended.  Initializers apply uniformly across the backends when
`length << stride_shift` does not overflow.  Take a pure per-bucket initializer (a rule giving
each slot its value from the `index()` of the bucket, the context and the scalars the bucket
holds), a power of two length `2 ^ n` and a stride shift `s` with `2 ^ n * 2 ^ s < 2 ^ 64`.  On
the dense store fresh from the constructor `set_default` ends and, for every id and every slot
below `stride()`, the slot of the bucket at `strided_index(id)` holds the value of the rule at
the index `(id << stride_shift) & mask` on a bucket of zeros.  On the sparse store built with
the same length and stride shift and the initializer registered by `set_default`, whatever
buckets its table already holds, `strided_index(id)` creating the bucket leaves in that slot
the value of the rule at the same index on a bucket of zeros; mask and stride are the same on
both. -/
theorem initializers_uniform (g : bucket_rule) (n s info u id slot fuel : Nat) (h0 hs : Heap)
    (m : weight_map) (hov : 2 ^ n * 2 ^ s < 2 ^ 64)
    (hslot : slot < (dense_parameters.ctor h0 (2 ^ n) s).2.stride) (hfuel : 2 ^ n < fuel)
    (hmiss : m.find (shl64 id s &&& (sparse_parameters.ctor (2 ^ n) s u).mask) = m.end_) :
    (∃ hd, (dense_parameters.ctor h0 (2 ^ n) s).2.set_default_info fuel
        (dense_parameters.ctor h0 (2 ^ n) s).1 g.dense info = some hd ∧
      hd.read (((dense_parameters.ctor h0 (2 ^ n) s).2.strided_index id).add slot)
        = some (g.value (shl64 id s &&& (dense_parameters.ctor h0 (2 ^ n) s).2.mask) info
            (List.replicate (dense_parameters.ctor h0 (2 ^ n) s).2.stride 0) slot)) ∧
    (∃ p, ({ (sparse_parameters.ctor (2 ^ n) s u).set_default_info g.sparse info with
          _map := m }.strided_index hs id).2.2 = some p ∧
      ({ (sparse_parameters.ctor (2 ^ n) s u).set_default_info g.sparse info with
          _map := m }.strided_index hs id).1.read (p.add slot)
        = some (g.value (shl64 id s &&& (sparse_parameters.ctor (2 ^ n) s u).mask) info
            (List.replicate (sparse_parameters.ctor (2 ^ n) s u).stride 0) slot)) ∧
    (sparse_parameters.ctor (2 ^ n) s u).mask = (dense_parameters.ctor h0 (2 ^ n) s).2.mask ∧
    (sparse_parameters.ctor (2 ^ n) s u).stride = (dense_parameters.ctor h0 (2 ^ n) s).2.stride
    := by
  have hsh : s < 32 := by
    by_contra hc
    have h0s : (dense_parameters.ctor h0 (2 ^ n) s).2.stride = 0 := shl32_one_ge s (by omega)
    rw [h0s] at hslot
    omega
  have hd : (dense_parameters.ctor h0 (2 ^ n) s).2.stride = 2 ^ s := shl32_one s hsh
  have hsp : (sparse_parameters.ctor (2 ^ n) s u).stride = 2 ^ s := shl32_one s hsh
  rw [hd] at hslot ⊢
  rw [hsp]
  have := initializers_uniform_aligned g n s info u id slot fuel h0 hs m hov hsh hslot hfuel hmiss
  exact ⟨this.1, this.2.1, this.2.2.1, rfl⟩

/-- A concrete instance of `initializers_uniform`: length 4, stride shift 1, the rule giving
slot `j` of the bucket of index `k` the value `k + info + j`, context 7, id 3, slot 1. -/
theorem initializers_uniform_witness :
    (∃ hd, (dense_parameters.ctor Heap.empty (2 ^ 2) 1).2.set_default_info 5
        (dense_parameters.ctor Heap.empty (2 ^ 2) 1).1
        (bucket_rule.mk (fun k info _ j => k + info + j)).dense 7 = some hd ∧
      hd.read (((dense_parameters.ctor Heap.empty (2 ^ 2) 1).2.strided_index 3).add 1)
        = some 14) ∧
    (∃ p, ({ (sparse_parameters.ctor (2 ^ 2) 1 0).set_default_info
          (bucket_rule.mk (fun k info _ j => k + info + j)).sparse 7 with
          _map := [] }.strided_index Heap.empty 3).2.2 = some p ∧
      ({ (sparse_parameters.ctor (2 ^ 2) 1 0).set_default_info
          (bucket_rule.mk (fun k info _ j => k + info + j)).sparse 7 with
          _map := [] }.strided_index Heap.empty 3).1.read (p.add 1) = some 14) := by
  have r := initializers_uniform (bucket_rule.mk (fun k info _ j => k + info + j)) 2 1 7 0 3 1 5
    Heap.empty Heap.empty [] (by decide) (by decide) (by decide) (by decide)
  obtain ⟨⟨hd, h1, h2⟩, ⟨p, h3, h4⟩, _, _⟩ := r
  exact ⟨⟨hd, h1, h2.trans (by decide)⟩, ⟨p, h3, h4.trans (by decide)⟩⟩

/-- C14, as stated, fails at the power of two length `2 ^ 63` with stride shift 1, where
`length << stride_shift` wraps to 0: the dense buffer holds no scalar, so that after
`set_default`, whenever it ends, slot 1 of the bucket at `strided_index(3)` holds no value,
while on the sparse store with the initializer that gives every slot 3.5 the same slot of the
bucket created by `strided_index(3)` holds 3.5. -/
theorem initializers_uniform_counterexample :
    ((dense_parameters.ctor Heap.empty (2 ^ 63) 1).1.block 0 = some [] ∧
      1 < (dense_parameters.ctor Heap.empty (2 ^ 63) 1).2.stride ∧
      ((dense_parameters.ctor Heap.empty (2 ^ 63) 1).2.strided_index 3).add 1 = ⟨some 0, 7⟩ ∧
      (dense_parameters.ctor Heap.empty (2 ^ 63) 1).1.read
        (((dense_parameters.ctor Heap.empty (2 ^ 63) 1).2.strided_index 3).add 1) = none) ∧
    (∀ (fuel : Nat) (hd : Heap),
      (dense_parameters.ctor Heap.empty (2 ^ 63) 1).2.set_default_info fuel
        (dense_parameters.ctor Heap.empty (2 ^ 63) 1).1
        (bucket_rule.mk (fun _ _ _ _ => weight_3_5)).dense 0 = some hd →
      hd.read (((dense_parameters.ctor Heap.empty (2 ^ 63) 1).2.strided_index 3).add 1)
        = none) ∧
    (((sparse_parameters.ctor (2 ^ 63) 1 0).set_default_info
        (bucket_rule.mk (fun _ _ _ _ => weight_3_5)).sparse 0).strided_index Heap.empty 3).2.2
      = some ⟨some 0, 0⟩ ∧
    (((sparse_parameters.ctor (2 ^ 63) 1 0).set_default_info
        (bucket_rule.mk (fun _ _ _ _ => weight_3_5)).sparse 0).strided_index Heap.empty 3).1.read
      ⟨some 0, 1⟩ = some weight_3_5 := by
  refine ⟨by decide, ?_, by decide, by decide⟩
  intro fuel hd hrun
  have hl := dense_set_default_loop_lengths _ _ _ fuel _ hd _ hrun 0
  have hblk : (dense_parameters.ctor Heap.empty (2 ^ 63) 1).1.block 0 = some [] := by decide
  have hp : ((dense_parameters.ctor Heap.empty (2 ^ 63) 1).2.strided_index 3).add 1
      = ⟨some 0, 7⟩ := by decide
  rw [hblk] at hl
  rw [hp]
  cases hb : hd.block 0 with
  | none => simp [Heap.read, hb]
  | some blk =>
    rw [hb] at hl
    have hlen : blk.length = 0 := by simpa using hl
    have hnil : blk = [] := List.eq_nil_of_length_eq_zero hlen
    simp [Heap.read, hb, hnil]

/-! ## C15: the block behind a returned address -/

/-- A miss of the sparse `operator[]` with no initializer registered. -/
theorem sparse_op_index_miss_plain (h : Heap) (st : sparse_parameters) (i : Nat)
    (hf : st.fun_ = none) (hmiss : st._map.find (i &&& st._weight_mask) = st._map.end_) :
    (st.op_index h i).1 = (calloc_mergable_or_throw h st._stride).1 ∧
    (st.op_index h i).2.1._map
      = st._map ++ [(i &&& st._weight_mask, ⟨some h.blocks.length, 0⟩)] ∧
    (st.op_index h i).2.2 = some ⟨some h.blocks.length, 0⟩ := by
  have habs := (weight_map.find_eq_end _ _).1 hmiss
  have hins : st._map.insert (i &&& st._weight_mask) ⟨some h.blocks.length, 0⟩
      = st._map ++ [(i &&& st._weight_mask, ⟨some h.blocks.length, 0⟩)] := by
    simp [weight_map.insert, hmiss]
  have hfind := weight_map.find_append st._map (i &&& st._weight_mask)
    ⟨some h.blocks.length, 0⟩ habs
  refine ⟨?_, ?_, ?_⟩
  · simp only [sparse_parameters.op_index, hmiss, if_true, hf]
  · simp only [sparse_parameters.op_index, hmiss, if_true]
    exact hins
  · simp only [sparse_parameters.op_index, hmiss, if_true]
    simp only [calloc_mergable_or_throw] at hins hfind ⊢
    rw [hins, hfind]
    simp [weight_map.entry]

/-- The fields other than the table after the sparse `operator[]`. -/
theorem sparse_op_index_fields (h : Heap) (st : sparse_parameters) (i : Nat) :
    (st.op_index h i).2.1 = { st with _map := (st.op_index h i).2.1._map } := by
  by_cases hm : st._map.find (i &&& st._weight_mask) = st._map.end_
  · simp only [sparse_parameters.op_index, hm, if_true]
  · simp only [sparse_parameters.op_index, hm, if_false]

/-- What the sparse `operator[]` does on a store whose table entries each start a live block
of `stride` scalars, when the initializer, if any, only stores scalars: the address returned
starts a live block of `stride` scalars, the store after the call is again such a store, every
entry of the table is still in the table, and every live block keeps its size. -/
theorem sparse_op_index_effect (h : Heap) (st : sparse_parameters) (i : Nat)
    (hv : st.valid h) (hf : ∀ f, st.fun_ = some f → keeps_blocks f) :
    (∃ b, (st.op_index h i).2.2 = some ⟨some b, 0⟩ ∧
      ((st.op_index h i).1.block b).map List.length = some st._stride) ∧
    (st.op_index h i).2.1.valid (st.op_index h i).1 ∧
    (∀ e ∈ st._map, e ∈ (st.op_index h i).2.1._map) ∧
    (∀ k blk, h.block k = some blk →
      ((st.op_index h i).1.block k).map List.length = some blk.length) := by
  by_cases hmiss : st._map.find (i &&& st._weight_mask) = st._map.end_
  · have hheap : ∀ k, ((st.op_index h i).1.block k).map List.length
        = ((calloc_mergable_or_throw h st._stride).1.block k).map List.length := by
      intro k
      cases hfun : st.fun_ with
      | none => rw [(sparse_op_index_miss_plain h st i hfun hmiss).1]
      | some f => rw [(sparse_op_index_miss h st i f hfun hmiss).1, hf f hfun]
    have hmap : (st.op_index h i).2.1._map
        = st._map ++ [(i &&& st._weight_mask, ⟨some h.blocks.length, 0⟩)] := by
      cases hfun : st.fun_ with
      | none => exact (sparse_op_index_miss_plain h st i hfun hmiss).2.1
      | some f => exact (sparse_op_index_miss h st i f hfun hmiss).2.1
    have hres : (st.op_index h i).2.2 = some ⟨some h.blocks.length, 0⟩ := by
      cases hfun : st.fun_ with
      | none => exact (sparse_op_index_miss_plain h st i hfun hmiss).2.2
      | some f => exact (sparse_op_index_miss h st i f hfun hmiss).2.2
    have hnew : ((st.op_index h i).1.block h.blocks.length).map List.length
        = some st._stride := by
      rw [hheap, Heap.block_calloc_new]; simp
    have hold : ∀ k blk, h.block k = some blk →
        ((st.op_index h i).1.block k).map List.length = some blk.length := by
      intro k blk hk
      rw [hheap, Heap.block_calloc_old h _ k (Heap.block_lt h k blk hk), hk]
      rfl
    refine ⟨⟨_, hres, hnew⟩, ?_, ?_, hold⟩
    · intro e he
      rw [sparse_op_index_fields, hmap] at he
      have hstr : (st.op_index h i).2.1._stride = st._stride := by
        rw [sparse_op_index_fields]
      rw [hstr]
      rcases List.mem_append.1 he with he | he
      · obtain ⟨h0, b, hb, hlen⟩ := hv e he
        refine ⟨h0, b, hb, ?_⟩
        cases hblk : h.block b with
        | none => simp [hblk] at hlen
        | some blk =>
          rw [hold b blk hblk]
          simpa [hblk] using hlen
      · simp only [List.mem_singleton] at he
        subst he
        exact ⟨rfl, _, rfl, hnew⟩
    · intro e he
      rw [hmap]
      exact List.mem_append_left _ he
  · obtain ⟨p, hp⟩ := weight_map.entry_find _ _ hmiss
    have hop : st.op_index h i = (h, st, some p) := by
      simp only [sparse_parameters.op_index, hmiss, if_false, hp, Option.map_some']
    have hmem : (i &&& st._weight_mask, p) ∈ st._map := List.getElem?_mem hp
    obtain ⟨h0, b, hb, hlen⟩ := hv _ hmem
    rw [hop]
    refine ⟨⟨b, ?_, hlen⟩, hv, fun e he => he, ?_⟩
    · have : p = ⟨some b, 0⟩ := by
        cases p with
        | mk base off =>
          simp only at h0 hb
          rw [h0, hb]
      rw [this]
    · intro k blk hk
      show (h.block k).map List.length = some blk.length
      rw [hk]; rfl

/-- A multiple of the stride below a multiple of the stride leaves room for a whole bucket. -/
theorem aligned_bucket_fits (K c N : Nat) (hK : K % c = 0) (hN : N % c = 0) (hlt : K < N) :
    K + c ≤ N := by
  obtain ⟨a, rfl⟩ := Nat.dvd_of_mod_eq_zero hK
  obtain ⟨b, rfl⟩ := Nat.dvd_of_mod_eq_zero hN
  have hab : a < b := Nat.lt_of_mul_lt_mul_left hlt
  have := Nat.mul_le_mul_left c (by omega : a + 1 ≤ b)
  rw [Nat.mul_add, Nat.mul_one] at this
  exact this

/-- Reading inside the buffer of a dense store. -/
theorem dense_read_some (h : Heap) (st : dense_parameters) (hv : st.valid h) (j : Nat)
    (hj : j ≤ st._weight_mask) : (h.read (st._begin.add j)).isSome = true := by
  obtain ⟨hoff, ⟨b, hb, hlen⟩, _, _⟩ := hv
  cases hblk : h.block b with
  | none => simp [hblk] at hlen
  | some blk =>
    simp only [hblk, Option.map_some', Option.some.injEq] at hlen
    have hlt : st._begin.off + j < blk.length := by omega
    simp [Heap.read, Ptr.add, hb, hblk, hlt]

/-- C15, as amended.  On a dense store whose buffer is a live block of `mask + 1` scalars cut
into buckets of `stride` scalars, with `stride = 1 << stride_shift` and a power of two size,
`strided_index(i)` is followed inside the buffer by `stride - 1` further scalars, for every
`i`; `operator[](i)` is a scalar of the buffer for every `i`, and is followed by `stride - 1`
further scalars when `i & mask` is a multiple of the stride.  On a sparse store whose table
entries each start a live block of `stride` scalars (the initializer, if any, only storing
scalars), `operator[](i)` and `strided_index(i)` return the start of a live block of `stride`
scalars, and the store is again such a store. -/
theorem address_block_of_stride :
    (∀ (h : Heap) (st : dense_parameters) (i : Nat), st.valid h → st.aligned →
      ((shl64 i st.stride_shift &&& st.mask) + st.stride ≤ st.mask + 1 ∧
        ∀ j, j < st.stride → (h.read ((st.strided_index i).add j)).isSome = true) ∧
      (h.read (st.op_index i)).isSome = true ∧
      ((i &&& st.mask) % st.stride = 0 →
        (i &&& st.mask) + st.stride ≤ st.mask + 1 ∧
        ∀ j, j < st.stride → (h.read ((st.op_index i).add j)).isSome = true)) ∧
    (∀ (h : Heap) (st : sparse_parameters) (i : Nat), st.valid h →
      (∀ f, st.fun_ = some f → keeps_blocks f) →
      (∃ b, (st.op_index h i).2.2 = some ⟨some b, 0⟩ ∧
        ((st.op_index h i).1.block b).map List.length = some st.stride) ∧
      (st.op_index h i).2.1.valid (st.op_index h i).1 ∧
      (∃ b, (st.strided_index h i).2.2 = some ⟨some b, 0⟩ ∧
        ((st.strided_index h i).1.block b).map List.length = some st.stride) ∧
      (st.strided_index h i).2.1.valid (st.strided_index h i).1) := by
  constructor
  · intro h st i hv ha
    have hfit : ∀ K, K ≤ st._weight_mask → K % st._stride = 0 →
        K + st._stride ≤ st._weight_mask + 1 ∧
        ∀ j, j < st._stride → (h.read ((st._begin.add K).add j)).isSome = true := by
      intro K hK hmod
      have hle := aligned_bucket_fits K st._stride (st._weight_mask + 1) hmod hv.2.2.2
        (by omega)
      refine ⟨hle, fun j hj => ?_⟩
      rw [Ptr.add_add]
      exact dense_read_some h st hv _ (by omega)
    refine ⟨?_, ?_, ?_⟩
    · exact hfit _ Nat.and_le_right (bucket_offset st ha i).1
    · exact dense_read_some h st hv _ Nat.and_le_right
    · intro hmod
      exact hfit _ Nat.and_le_right hmod
  · intro h st i hv hf
    obtain ⟨h1, h2, _, _⟩ := sparse_op_index_effect h st i hv hf
    obtain ⟨h3, h4, _, _⟩ := sparse_op_index_effect h st (shl64 i st._stride_shift) hv hf
    exact ⟨h1, h2, h3, h4⟩

theorem address_block_of_stride_witness :
    ((dense_parameters.ctor Heap.empty (2 ^ 2) 1).1.read
      ((dense_parameters.ctor Heap.empty (2 ^ 2) 1).2.op_index 6)).isSome = true ∧
    (6 &&& (dense_parameters.ctor Heap.empty (2 ^ 2) 1).2.mask)
      % (dense_parameters.ctor Heap.empty (2 ^ 2) 1).2.stride = 0 ∧
    (6 &&& (dense_parameters.ctor Heap.empty (2 ^ 2) 1).2.mask)
      + (dense_parameters.ctor Heap.empty (2 ^ 2) 1).2.stride
      ≤ (dense_parameters.ctor Heap.empty (2 ^ 2) 1).2.mask + 1 :=
  ⟨(address_block_of_stride.1 (dense_parameters.ctor Heap.empty (2 ^ 2) 1).1
      (dense_parameters.ctor Heap.empty (2 ^ 2) 1).2 6
      (ctor_valid Heap.empty 2 1 (by decide) (by decide)).1
      (ctor_valid Heap.empty 2 1 (by decide) (by decide)).2).2.1,
    by decide,
    ((address_block_of_stride.1 (dense_parameters.ctor Heap.empty (2 ^ 2) 1).1
      (dense_parameters.ctor Heap.empty (2 ^ 2) 1).2 6
      (ctor_valid Heap.empty 2 1 (by decide) (by decide)).1
      (ctor_valid Heap.empty 2 1 (by decide) (by decide)).2).2.2 (by decide)).1⟩

/-- C15, as stated, fails for `operator[]` on a dense store: on the store built with length 4
and stride shift 1 (8 scalars, mask 7, stride 2) the address `operator[](7)` is the last scalar
of the buffer; `(7 & mask) + stride` is 9, above `mask + 1 = 8`, and the scalar after it is
outside the buffer. -/
theorem address_block_of_stride_counterexample :
    ¬ ((7 &&& (dense_parameters.ctor Heap.empty 4 1).2.mask)
        + (dense_parameters.ctor Heap.empty 4 1).2.stride
      ≤ (dense_parameters.ctor Heap.empty 4 1).2.mask + 1) ∧
    (dense_parameters.ctor Heap.empty 4 1).1.read
      ((dense_parameters.ctor Heap.empty 4 1).2.op_index 7) = some 0 ∧
    (dense_parameters.ctor Heap.empty 4 1).1.read
      (((dense_parameters.ctor Heap.empty 4 1).2.op_index 7).add
        ((dense_parameters.ctor Heap.empty 4 1).2.stride - 1)) = none := by
  decide


/-! ## C16: the mask of a dense store -/

/-- The method `share` assigns `_begin` alone. -/
theorem dense_share_fields (h : Heap) (st : dense_parameters) (length : Nat) :
    (st.share h length).2.1._weight_mask = st._weight_mask ∧
    (st.share h length).2.1._stride_shift = st._stride_shift ∧
    (st.share h length).2.1._stride = st._stride ∧
    (st.share h length).2.1._seeded = st._seeded := by
  unfold dense_parameters.share
  simp only
  split <;> exact ⟨rfl, rfl, rfl, rfl⟩

/-- C16, as amended.  Right after the constructor `mask()` is `(length << stride_shift) - 1`,
which is `2 ^ (n + s) - 1` for a power of two length `2 ^ n` without overflow; after the
default constructor it is 0; `shallow_copy` and the copy constructor replace it by the mask of
the input; the `stride_shift` setter and `share` leave it as it was (`operator[]` and
`set_zero` assign no field).  So `mask() + 1` is a power of two on every store reached from
the constructors by these operations. -/
theorem dense_mask_invariant :
    (∀ (h : Heap) (L s : Nat), (dense_parameters.ctor h L s).2.mask = sub64 (shl64 L s) 1) ∧
    (∀ (h : Heap) (n s : Nat), 2 ^ n * 2 ^ s < 2 ^ 64 →
      (dense_parameters.ctor h (2 ^ n) s).2.mask + 1 = 2 ^ (n + s)) ∧
    dense_parameters.default_ctor.mask = 0 ∧
    (∀ self input : dense_parameters, (self.shallow_copy input).mask = input.mask) ∧
    (∀ uninit other : dense_parameters,
      (dense_parameters.copy_ctor uninit other).mask = other.mask) ∧
    (∀ (st : dense_parameters) (x : Nat), (st.set_stride_shift x).mask = st.mask) ∧
    (∀ (h : Heap) (st : dense_parameters) (length : Nat),
      (st.share h length).2.1.mask = st.mask) ∧
    (∀ st : dense_parameters, st.reachable → ∃ m, st.mask + 1 = 2 ^ m) := by
  have hctor : ∀ (h : Heap) (n s : Nat), 2 ^ n * 2 ^ s < 2 ^ 64 →
      (dense_parameters.ctor h (2 ^ n) s).2.mask + 1 = 2 ^ (n + s) := by
    intro h n s hov
    have hpos : 0 < 2 ^ (n + s) := by positivity
    unfold dense_parameters.mask
    rw [ctor_mask h n s hov]
    omega
  refine ⟨fun _ _ _ => rfl, hctor, rfl, fun _ _ => rfl, fun _ _ => rfl, fun _ _ => rfl,
    fun h st length => (dense_share_fields h st length).1, ?_⟩
  intro st hr
  induction hr with
  | ctor h n s hov => exact ⟨n + s, hctor h n s hov⟩
  | default_ctor => exact ⟨0, rfl⟩
  | copy_ctor uninit other _ ih => exact ih
  | shallow_copy self input _ _ _ ih => exact ih
  | set_stride_shift st x _ ih => exact ih
  | share h st length _ ih =>
    obtain ⟨m, hm⟩ := ih
    refine ⟨m, ?_⟩
    unfold dense_parameters.mask at hm ⊢
    rw [(dense_share_fields h st length).1]
    exact hm

theorem dense_mask_invariant_witness :
    ∃ m, ((dense_parameters.ctor (dense_parameters.ctor Heap.empty (2 ^ 3) 0).1
        (2 ^ 2) 0).2.shallow_copy (dense_parameters.ctor Heap.empty (2 ^ 3) 0).2).mask + 1
      = 2 ^ m :=
  dense_mask_invariant.2.2.2.2.2.2.2 _
    (dense_parameters.reachable.shallow_copy _ _
      (dense_parameters.reachable.ctor _ 2 0 (by decide))
      (dense_parameters.reachable.ctor _ 3 0 (by decide)))

/-- C16, as stated, fails after `shallow_copy`: the store built with length 4 and stride shift
0 that adopts the store built with length 8 has the mask 7 of the latter, not
`(4 << 0) - 1 = 3`. -/
theorem dense_mask_invariant_counterexample :
    ((dense_parameters.ctor (dense_parameters.ctor Heap.empty 8 0).1 4 0).2.shallow_copy
        (dense_parameters.ctor Heap.empty 8 0).2).mask = 7 ∧
    ¬ (((dense_parameters.ctor (dense_parameters.ctor Heap.empty 8 0).1 4 0).2.shallow_copy
        (dense_parameters.ctor Heap.empty 8 0).2).mask = sub64 (shl64 4 0) 1) := by
  decide


/-! ## C17: buckets of the sparse store -/

/-- The size of a block that keeps its length. -/
theorem valid_of_lengths (h h1 : Heap) (st : sparse_parameters) (hv : st.valid h)
    (hl : ∀ k, (h1.block k).map List.length = (h.block k).map List.length) : st.valid h1 := by
  intro e he
  obtain ⟨h0, b, hb, hlen⟩ := hv e he
  exact ⟨h0, b, hb, by rw [hl, hlen]⟩

/-- C17, as amended.  On a sparse store whose table entries each start a live block of `stride`
scalars (the initializer, if any, only storing scalars), `operator[]` and `strided_index` keep
every entry of the table and leave each a live block of `stride` scalars; `set_zero` with an
offset below the stride ends and keeps every block's size (it does not assign the table);
`set_default` and the `stride_shift` setter change neither the table nor the stride.
`shallow_copy` replaces the table of the receiving store by the table of the input. -/
theorem sparse_buckets_kept (h : Heap) (st : sparse_parameters) (hv : st.valid h)
    (hf : ∀ f, st.fun_ = some f → keeps_blocks f) :
    (∀ i, (∀ e ∈ st._map, e ∈ (st.op_index h i).2.1._map) ∧
      (st.op_index h i).2.1.stride = st.stride ∧
      (st.op_index h i).2.1.valid (st.op_index h i).1) ∧
    (∀ i, (∀ e ∈ st._map, e ∈ (st.strided_index h i).2.1._map) ∧
      (st.strided_index h i).2.1.stride = st.stride ∧
      (st.strided_index h i).2.1.valid (st.strided_index h i).1) ∧
    (∀ offset, offset < st.stride → ∃ h1, st.set_zero h offset = some h1 ∧ st.valid h1) ∧
    (∀ (T : initializer_fn) (info : Nat),
      (st.set_default_info T info)._map = st._map ∧
      (st.set_default_info T info).stride = st.stride ∧
      (st.set_default T)._map = st._map ∧ (st.set_default T).stride = st.stride) ∧
    (∀ x, (st.set_stride_shift x)._map = st._map ∧ (st.set_stride_shift x).stride = st.stride) ∧
    (∀ input : sparse_parameters, (st.shallow_copy input)._map = input._map) := by
  have hop : ∀ i, (∀ e ∈ st._map, e ∈ (st.op_index h i).2.1._map) ∧
      (st.op_index h i).2.1.stride = st.stride ∧
      (st.op_index h i).2.1.valid (st.op_index h i).1 := by
    intro i
    obtain ⟨_, h2, h3, _⟩ := sparse_op_index_effect h st i hv hf
    refine ⟨h3, ?_, h2⟩
    unfold sparse_parameters.stride
    rw [sparse_op_index_fields]
  refine ⟨hop, fun i => hop (shl64 i st._stride_shift), ?_, fun _ _ => ⟨rfl, rfl, rfl, rfl⟩,
    fun _ => ⟨rfl, rfl⟩, fun _ => rfl⟩
  intro offset ho
  unfold sparse_parameters.stride at ho
  have hin : ∀ e ∈ st._map, h.inbounds (e.2.add offset) := by
    intro e he
    obtain ⟨h0, b, hb, hlen⟩ := hv e he
    exact ⟨b, st._stride, hb, hlen, by simp only [Ptr.add, h0]; omega⟩
  obtain ⟨h1, hrun, _, _, hl⟩ := sparse_set_zero_loop_spec offset st._map h hin
  exact ⟨h1, hrun, valid_of_lengths h h1 st hv hl⟩

theorem sparse_buckets_kept_witness :
    (1, (⟨some 0, 0⟩ : Ptr)) ∈
      (((sparse_parameters.ctor 4 0 0).op_index Heap.empty 1).2.1.op_index
        ((sparse_parameters.ctor 4 0 0).op_index Heap.empty 1).1 2).2.1._map := by
  have hmap : ((sparse_parameters.ctor 4 0 0).op_index Heap.empty 1).2.1._map
      = [(1, ⟨some 0, 0⟩)] := by decide
  have hfun : ((sparse_parameters.ctor 4 0 0).op_index Heap.empty 1).2.1.fun_ = none := rfl
  have hv : ((sparse_parameters.ctor 4 0 0).op_index Heap.empty 1).2.1.valid
      ((sparse_parameters.ctor 4 0 0).op_index Heap.empty 1).1 := by
    intro e he
    rw [hmap] at he
    simp only [List.mem_singleton] at he
    subst he
    exact ⟨rfl, 0, rfl, by decide⟩
  exact ((sparse_buckets_kept ((sparse_parameters.ctor 4 0 0).op_index Heap.empty 1).1
    ((sparse_parameters.ctor 4 0 0).op_index Heap.empty 1).2.1 hv
    (fun f hf => by rw [hfun] at hf; cases hf)).1 2).1 _ (by rw [hmap]; simp)

/-- C17, as stated, fails for `shallow_copy`: the store built with length 4 holds a bucket for
the index 1 after `operator[](1)`; after it adopts an empty store by `shallow_copy` its table
is empty. -/
theorem sparse_buckets_kept_counterexample :
    ((sparse_parameters.ctor 4 0 0).op_index Heap.empty 1).2.1._map = [(1, ⟨some 0, 0⟩)] ∧
    (((sparse_parameters.ctor 4 0 0).op_index Heap.empty 1).2.1.shallow_copy
      (sparse_parameters.ctor 4 0 0))._map = [] := by
  decide


/-! ## C18: teardown of dense stores -/

/-- C18. Teardown of a dense store whose buffer pointer is null or points into a block
releases the buffer (one more entry in the log of releases) exactly when the store is not
seeded and the pointer is not null; it then releases that buffer and nulls the pointer, and
otherwise changes nothing.  For an owning store `A` (not seeded, buffer the block `b`) and a
shallow copy `B` made from it, tearing down `A` then `B`, or `B` then `A`, adds the single
release of `b` to the log. -/
theorem dense_ownership (h : Heap) (A X : dense_parameters) :
    (∀ (h1 : Heap) (st : dense_parameters), (st._begin.base = none → st._begin = nullptr) →
      (((st.dtor h1).1.freed ≠ h1.freed ↔ (st.seeded = false ∧ st._begin ≠ nullptr)) ∧
       (st.seeded = false ∧ st._begin ≠ nullptr →
          (st.dtor h1).1 = h1.free st._begin ∧ (st.dtor h1).2._begin = nullptr) ∧
       (¬ (st.seeded = false ∧ st._begin ≠ nullptr) → st.dtor h1 = (h1, st)))) ∧
    (∀ b off, A.seeded = false → A._begin = ⟨some b, off⟩ →
      (X.shallow_copy A)._begin = A._begin ∧
      ((X.shallow_copy A).dtor (A.dtor h).1).1.freed = h.freed ++ [b] ∧
      (A.dtor ((X.shallow_copy A).dtor h).1).1.freed = h.freed ++ [b] ∧
      ((X.shallow_copy A).dtor (A.dtor h).1).1.block b = none ∧
      (A.dtor ((X.shallow_copy A).dtor h).1).1.block b = none) := by
  constructor
  · intro h1 st hwf
    unfold dense_parameters.seeded
    by_cases hc : st._begin ≠ nullptr ∧ st._seeded = false
    · have hd : st.dtor h1 = (h1.free st._begin, { st with _begin := nullptr }) := by
        unfold dense_parameters.dtor
        rw [if_pos hc]
      have hbase : ∃ b, st._begin.base = some b := by
        cases hb : st._begin.base with
        | none => exact absurd (hwf hb) hc.1
        | some b => exact ⟨b, rfl⟩
      obtain ⟨b, hb⟩ := hbase
      refine ⟨⟨fun _ => ⟨hc.2, hc.1⟩, fun _ => ?_⟩, fun _ => by rw [hd]; exact ⟨rfl, rfl⟩,
        fun hn => absurd ⟨hc.2, hc.1⟩ hn⟩
      rw [hd]
      simp [Heap.free, hb]
    · have hd : st.dtor h1 = (h1, st) := by
        unfold dense_parameters.dtor
        rw [if_neg hc]
      refine ⟨⟨fun hne => ?_, fun hcc => absurd ⟨hcc.2, hcc.1⟩ hc⟩,
        fun hcc => absurd ⟨hcc.2, hcc.1⟩ hc, fun _ => hd⟩
      rw [hd] at hne
      exact absurd rfl hne
  · intro b off hs hb
    unfold dense_parameters.seeded at hs
    have hne : A._begin ≠ nullptr := by
      rw [hb]; simp [nullptr]
    have hA : ∀ h1, A.dtor h1 = (h1.free A._begin, { A with _begin := nullptr }) := by
      intro h1
      unfold dense_parameters.dtor
      rw [if_pos ⟨hne, hs⟩]
    have hB : ∀ h1, (X.shallow_copy A).dtor h1 = (h1, X.shallow_copy A) := by
      intro h1
      unfold dense_parameters.dtor
      rw [if_neg (fun hc => by simp [dense_parameters.shallow_copy] at hc)]
    refine ⟨rfl, ?_, ?_, ?_, ?_⟩
    · rw [hB, hA]; simp [Heap.free, hb]
    · rw [hB, hA]; simp [Heap.free, hb]
    · rw [hB, hA]; exact Heap.block_free_same h _ b (by rw [hb])
    · rw [hB, hA]; exact Heap.block_free_same h _ b (by rw [hb])

theorem dense_ownership_witness :
    ((dense_parameters.default_ctor.shallow_copy (dense_parameters.ctor Heap.empty 4 1).2).dtor
      ((dense_parameters.ctor Heap.empty 4 1).2.dtor
        (dense_parameters.ctor Heap.empty 4 1).1).1).1.freed = [0] :=
  ((dense_ownership (dense_parameters.ctor Heap.empty 4 1).1
    (dense_parameters.ctor Heap.empty 4 1).2 dense_parameters.default_ctor).2 0 0 rfl rfl).2.1


/-! ## C19: `index()` of the dense bucket iterator -/

/-- The bucket iterator after `n` steps. -/
theorem dense_iterator_steps (p b0 : Ptr) (c : Nat) : ∀ n : Nat,
    Nat.iterate dense_iterator.incr n ⟨p, b0, c⟩ = ⟨p.add (n * c), b0, c⟩ := by
  intro n
  induction n with
  | zero => simp [Ptr.add]
  | succ n ih =>
    rw [Function.iterate_succ_apply', ih]
    simp only [dense_iterator.incr, Ptr.add_add, Nat.add_mul, Nat.one_mul]

/-- C19. On a dense store whose size `mask + 1` is a power of two, for every
`n < (mask + 1) / stride` the bucket iterator reached from `begin()` by `n` steps of
`operator++` has `index()` equal to `n * stride`, its offset from the start of the buffer, and
the address it dereferences to is the address `operator[](index())` of the store. -/
theorem dense_iterator_index (st : dense_parameters) (m n : Nat) (hm : st.mask = 2 ^ m - 1)
    (hn : n < (st.mask + 1) / st.stride) :
    (Nat.iterate dense_iterator.incr n st.begin).index = n * st.stride ∧
    (Nat.iterate dense_iterator.incr n st.begin).deref = st._begin.add (n * st.stride) ∧
    (Nat.iterate dense_iterator.incr n st.begin).deref
      = st.op_index (Nat.iterate dense_iterator.incr n st.begin).index := by
  unfold dense_parameters.mask dense_parameters.stride at *
  have hidx : (Nat.iterate dense_iterator.incr n st.begin).index = n * st._stride := by
    rw [dense_parameters.begin, dense_iterator_steps]
    simp [dense_iterator.index, Ptr.diff, Ptr.add]
  have hder : (Nat.iterate dense_iterator.incr n st.begin).deref
      = st._begin.add (n * st._stride) := by
    rw [dense_parameters.begin, dense_iterator_steps]
    rfl
  have hcpos : 0 < st._stride := by
    rcases Nat.eq_zero_or_pos st._stride with h0 | h0
    · rw [h0, Nat.div_zero] at hn
      omega
    · exact h0
  have hlt : n * st._stride < st._weight_mask + 1 := by
    have h1 : (n + 1) * st._stride ≤ st._weight_mask + 1 :=
      (Nat.le_div_iff_mul_le hcpos).1 hn
    rw [Nat.add_mul, Nat.one_mul] at h1
    omega
  refine ⟨hidx, hder, ?_⟩
  rw [hidx, hder]
  unfold dense_parameters.op_index
  have hpos : 0 < 2 ^ m := by positivity
  rw [hm, Nat.and_pow_two_sub_one_eq_mod, Nat.mod_eq_of_lt (by omega)]

theorem dense_iterator_index_witness :
    (Nat.iterate dense_iterator.incr 3 (dense_parameters.ctor Heap.empty 4 1).2.begin).index
      = 3 * (dense_parameters.ctor Heap.empty 4 1).2.stride :=
  (dense_iterator_index (dense_parameters.ctor Heap.empty 4 1).2 3 3 (by decide)
    (by decide)).1


/-! ## C20: const iteration -/

/-- C20. Const iteration over a sparse store does not agree with mutable iteration: `cend()`
is built from `_map.begin()`, so `cbegin()` equals `cend()` and the loop from `cbegin()` to
`cend()` visits no bucket, whatever the table holds.  On the store built with length 4 after
`operator[](1)` the loop from `begin()` to `end()` visits the one bucket of the table and the
const loop visits none.  On a dense store `cbegin()` and `cend()` are `begin()` and
`end()`. -/
theorem const_iteration_empty :
    (∀ (st : sparse_parameters) (fuel : Nat),
      sparse_iterator.walk (fuel + 1) st.cbegin st.cend = some []) ∧
    sparse_iterator.walk 2 ((sparse_parameters.ctor 4 0 0).op_index Heap.empty 1).2.1.begin
        ((sparse_parameters.ctor 4 0 0).op_index Heap.empty 1).2.1.end_
      = some [⟨[(1, ⟨some 0, 0⟩)], 0, 1⟩] ∧
    sparse_iterator.walk 2 ((sparse_parameters.ctor 4 0 0).op_index Heap.empty 1).2.1.cbegin
        ((sparse_parameters.ctor 4 0 0).op_index Heap.empty 1).2.1.cend
      = some [] ∧
    (∀ st : dense_parameters, st.cbegin = st.begin ∧ st.cend = st.end_) := by
  refine ⟨?_, by decide, by decide, fun _ => ⟨rfl, rfl⟩⟩
  intro st fuel
  simp [sparse_iterator.walk, sparse_iterator.ne, sparse_parameters.cbegin,
    sparse_parameters.cend]

end VW
